import Mathlib

/-!
# Verification of the projzst container codec

A shallow embedding of the projzst library (`src/lib.rs`): the metadata
record, its MessagePack serialization as produced by `rmp_serde`, the
skippable-frame container framing of `pack` and `read_metadata_from_file`,
and the three unknown-field policies.

Modelling conventions:
* Byte streams are `List Nat` (each entry one byte; framing and MessagePack
  length fields use explicit `% 256` / base-256 arithmetic).
* Strings are kept as their UTF-8 byte lists (`List Nat`); the container
  logic never inspects string contents.
* `serde_json::Value` is modelled by `Json`, with numbers restricted to the
  integers (floating point is outside the scope of this development);
  `serde_json::Map` (a `BTreeMap` built by successive inserts) is modelled
  as a key-value list without duplicate keys, built by `Json.insertObj`.
* File I/O is modelled by operating on the full byte list of a file; the
  read cursor of the open `File` is the remaining suffix of that list.
  `read_exact` hitting end-of-input is `PErr.ioUnexpectedEof`
  (`ProjzstError::Io` with kind `UnexpectedEof` in the source).
* Recursive byte-stream consumers take a fuel argument (always called with
  fuel larger than any possible number of steps, see `readLoop_fuel` and
  `parseMany`), so that all definitions compute by kernel reduction.
-/

namespace Projzst

/-! ## Little/big-endian byte encoding (u32 `to_le_bytes` / MessagePack) -/

/-- `k`-byte little-endian encoding of `n` (truncating, as `as u32` does). -/
def toLE : Nat → Nat → List Nat
  | 0, _ => []
  | k + 1, n => n % 256 :: toLE k (n / 256)

/-- Read a little-endian byte list back as a number
(`u32::from_le_bytes` on 4 bytes). -/
def fromLE : List Nat → Nat
  | [] => 0
  | b :: bs => b + 256 * fromLE bs

/-- `k`-byte big-endian encoding (MessagePack length and integer fields). -/
def toBE (k n : Nat) : List Nat := (toLE k n).reverse

/-- Big-endian read-back. -/
def fromBE (bs : List Nat) : Nat := fromLE bs.reverse

@[simp] theorem toLE_length : ∀ k n, (toLE k n).length = k := by
  intro k
  induction k with
  | zero => intro n; rfl
  | succ k ih => intro n; simp [toLE, ih]

@[simp] theorem toBE_length (k n : Nat) : (toBE k n).length = k := by
  simp [toBE]

theorem fromLE_toLE : ∀ k n, fromLE (toLE k n) = n % 256 ^ k := by
  intro k
  induction k with
  | zero => intro n; simp [toLE, fromLE, Nat.mod_one]
  | succ k ih =>
    intro n
    have h256 : (256 : Nat) ^ (k + 1) = 256 * 256 ^ k := by ring
    simp [toLE, fromLE, ih, h256, Nat.mod_mul]

theorem fromLE_toLE_of_lt {k n : Nat} (h : n < 256 ^ k) :
    fromLE (toLE k n) = n := by
  rw [fromLE_toLE, Nat.mod_eq_of_lt h]

theorem fromBE_toBE_of_lt {k n : Nat} (h : n < 256 ^ k) :
    fromBE (toBE k n) = n := by
  rw [toBE, fromBE, List.reverse_reverse, fromLE_toLE_of_lt h]

/-- `read_exact` of `n` bytes from the front of the stream. -/
def takeN (n : Nat) (l : List Nat) : Option (List Nat × List Nat) :=
  if n ≤ l.length then some (l.take n, l.drop n) else none

theorem takeN_append {s : List Nat} {n : Nat} (h : s.length = n)
    (r : List Nat) : takeN n (s ++ r) = some (s, r) := by
  subst h
  simp [takeN, List.take_left, List.drop_left]

/-! ## `serde_json::Value` -/

/-- Model of `serde_json::Value`; numbers are restricted to integers and
strings are UTF-8 byte lists. Objects are duplicate-free key-value lists
standing for `serde_json::Map` (a `BTreeMap` in the source's configuration). -/
inductive Json where
  | null
  | bool (b : Bool)
  | int (n : Int)
  | str (s : List Nat)
  | arr (xs : List Json)
  | obj (kvs : List (List Nat × Json))

/-- `Value::is_object`. -/
def Json.isObj : Json → Bool
  | .obj _ => true
  | _ => false

/-- `Map::get` on the association-list model. -/
def lookupObj : List (List Nat × Json) → List Nat → Option Json
  | [], _ => none
  | (k, v) :: t, key => if k = key then some v else lookupObj t key

/-- `Map::insert`: replace the value at an existing key, otherwise append.
(Key order is irrelevant to every theorem below; lists built by `insertObj`
are duplicate-free, matching `BTreeMap` semantics.) -/
def insertObj : List (List Nat × Json) → List Nat → Json → List (List Nat × Json)
  | [], key, v => [(key, v)]
  | (k, w) :: t, key, v =>
    if k = key then (key, v) :: t else (k, w) :: insertObj t key v

/-- Insert a list of key-value pairs in order (`for (key, value) in map`). -/
def insertAll (acc : List (List Nat × Json)) :
    List (List Nat × Json) → List (List Nat × Json)
  | [] => acc
  | (k, v) :: t => insertAll (insertObj acc k v) t

/-- Does a key occur among the entries? -/
def containsKey : List (List Nat × Json) → List Nat → Bool
  | [], _ => false
  | (k, _) :: t, key => k = key || containsKey t key

/-- No duplicate keys (invariant of every real `serde_json::Map`). -/
def nodupKeys : List (List Nat × Json) → Bool
  | [] => true
  | (k, _) :: t => !containsKey t k && nodupKeys t

mutual
/-- Well-formedness of a `Json` value as an image of a real
`serde_json::Value`: integer numbers fit in `u64`/`i64`, string/collection
sizes fit the MessagePack 32-bit length fields, object keys are duplicate
free. -/
def Json.wf : Json → Bool
  | .null => true
  | .bool _ => true
  | .int n => decide (-(2 ^ 63 : Int) ≤ n ∧ n < 2 ^ 64)
  | .str s => decide (s.length < 2 ^ 32)
  | .arr xs => decide (xs.length < 2 ^ 32) && Json.wfL xs
  | .obj kvs => decide (kvs.length < 2 ^ 32) && nodupKeys kvs && Json.wfP kvs

def Json.wfL : List Json → Bool
  | [] => true
  | x :: t => x.wf && Json.wfL t

def Json.wfP : List (List Nat × Json) → Bool
  | [] => true
  | (k, v) :: t => decide (k.length < 2 ^ 32) && v.wf && Json.wfP t
end

mutual
/-- Does the key occur (deeply) anywhere inside the value? -/
def Json.hasKeyDeep (key : List Nat) : Json → Bool
  | .arr xs => Json.hasKeyDeepL key xs
  | .obj kvs => Json.hasKeyDeepP key kvs
  | _ => false

def Json.hasKeyDeepL (key : List Nat) : List Json → Bool
  | [] => false
  | x :: t => Json.hasKeyDeep key x || Json.hasKeyDeepL key t

def Json.hasKeyDeepP (key : List Nat) : List (List Nat × Json) → Bool
  | [] => false
  | (k, v) :: t =>
    decide (k = key) || Json.hasKeyDeep key v || Json.hasKeyDeepP key t
end

/-! ## Canonical field names (UTF-8 bytes)

`"name"`, `"auth"`, `"fmt"`, `"ed"`, `"ver"`, `"desc"`, `"extra"`,
and the reserved sub-key `"ignored"`. -/

def nameKey : List Nat := [110, 97, 109, 101]
def authKey : List Nat := [97, 117, 116, 104]
def fmtKey : List Nat := [102, 109, 116]
def edKey : List Nat := [101, 100]
def verKey : List Nat := [118, 101, 114]
def descKey : List Nat := [100, 101, 115, 99]
def extraKey : List Nat := [101, 120, 116, 114, 97]
def ignoredKey : List Nat := [105, 103, 110, 111, 114, 101, 100]

/-- The unknown test field name `"bogus"` from the spec's policy scenario. -/
def bogusKey : List Nat := [98, 111, 103, 117, 115]

/-! ## The `Metadata` record and its operations -/

/-- The `Metadata` struct: six optional identity fields plus `extra`. -/
structure Metadata where
  name : Option (List Nat)
  auth : Option (List Nat)
  fmt : Option (List Nat)
  ed : Option (List Nat)
  ver : Option (List Nat)
  desc : Option (List Nat)
  extra : Json

/-- `Metadata::default()`: all identity fields absent, `extra` an empty
object. -/
def Metadata.default : Metadata :=
  { name := none, auth := none, fmt := none, ed := none, ver := none,
    desc := none, extra := .obj [] }

/-- `Metadata::new(...)`: the six identity fields from the caller (already
converted to options by `IntoOpStr`), `extra` an empty object. -/
def Metadata.new (name auth fmt ed ver desc : Option (List Nat)) : Metadata :=
  { name, auth, fmt, ed, ver, desc, extra := .obj [] }

/-- `Metadata::with_extra`: replaces `extra` wholesale. -/
def Metadata.with_extra (m : Metadata) (extra : Json) : Metadata :=
  { m with extra }

/-- The entries of an object value (callers only apply it after an
`is_object` check, mirroring Rust's `if let Value::Object(..)`). -/
def Json.objEntries : Json → List (List Nat × Json)
  | .obj kvs => kvs
  | _ => []

/-- `Metadata::merge_unknown_fields`: no-op unless `unknown` is an object;
otherwise coerce `extra` to an object if needed, coerce its `"ignored"`
entry to an object if needed (creating it if absent), and insert every
unknown key-value pair into that entry (overwriting same-named keys). -/
def Metadata.merge_unknown_fields (m : Metadata) (unknown : Json) : Metadata :=
  match unknown with
  | .obj ukvs =>
    let ekvs := if m.extra.isObj then m.extra.objEntries else []
    let ign0 := match lookupObj ekvs ignoredKey with
      | some v => v
      | none => .obj []
    let ikvs := if ign0.isObj then ign0.objEntries else []
    { m with extra := .obj (insertObj ekvs ignoredKey (.obj (insertAll ikvs ukvs))) }
  | _ => m

/-- The `IgnoreUnknown` unknown-field policy. -/
inductive IgnoreUnknown where
  | on
  | off
  | export_
deriving DecidableEq

/-- The error kinds of `ProjzstError` reachable from the modelled
operations. `ioUnexpectedEof` is `ProjzstError::Io` with the
`UnexpectedEof` kind, `msgPackDecode` is `ProjzstError::MsgPackDecode`,
`jsonError` is `ProjzstError::Json`. -/
inductive PErr where
  | ioUnexpectedEof
  | msgPackDecode
  | jsonError
  | invalidMetadataLength (n : Nat)
  | invalidFileHeader
  | unknownFields (s : List Nat)
deriving DecidableEq

/-! ## Constants (`lib.rs` lines 20-30) -/

def MAX_METADATA_SIZE : Nat := 10 * 1024 * 1024
def SKIPPABLE_FRAME_MAGIC_MIN : Nat := 0x184D2A50
def SKIPPABLE_FRAME_MAGIC_MAX : Nat := 0x184D2A5F
def METADATA_FRAME_MAGIC : Nat := 0x184D2A50

/-! ## MessagePack values

`MPV` is the value level of the MessagePack wire format as used by
`rmp_serde`: the serializer writes an `MPV` to bytes (`encMPV`, choosing the
minimal format for each value as `rmp` does) and the deserializer parses
bytes back into an `MPV` (`parseMany`) before the serde visitors interpret
it. Floats, `bin` and `ext` families never arise from the modelled data and
are parse errors. -/

inductive MPV where
  | nil
  | bool (b : Bool)
  | int (n : Int)
  | str (s : List Nat)
  | arr (xs : List MPV)
  | map (kvs : List (MPV × MPV))

/-- Minimal-format MessagePack integer encoding: `serde_json::Number`
serializes nonnegative values through `u64` and negative values through
`i64`, and `rmp` picks the smallest format. Out-of-range values are
truncated mod `2 ^ 64` (cannot arise from a well-formed value). -/
def encInt (n : Int) : List Nat :=
  if 0 ≤ n then
    let m := n.toNat % 2 ^ 64
    if m < 128 then [m]
    else if m < 256 then [0xcc, m]
    else if m < 65536 then 0xcd :: toBE 2 m
    else if m < 4294967296 then 0xce :: toBE 4 m
    else 0xcf :: toBE 8 m
  else
    if -32 ≤ n then [(n + 256).toNat]
    else if -128 ≤ n then [0xd0, (n + 256).toNat]
    else if -32768 ≤ n then 0xd1 :: toBE 2 (n + 65536).toNat
    else if -2147483648 ≤ n then 0xd2 :: toBE 4 (n + 4294967296).toNat
    else 0xd3 :: toBE 8 ((n + 18446744073709551616).toNat % 2 ^ 64)

/-- MessagePack string header (`fixstr`/`str8`/`str16`/`str32`). -/
def encStrHeader (n : Nat) : List Nat :=
  if n < 32 then [0xa0 + n]
  else if n < 256 then [0xd9, n]
  else if n < 65536 then 0xda :: toBE 2 n
  else 0xdb :: toBE 4 n

/-- MessagePack array header (`fixarray`/`array16`/`array32`). -/
def encArrHeader (n : Nat) : List Nat :=
  if n < 16 then [0x90 + n]
  else if n < 65536 then 0xdc :: toBE 2 n
  else 0xdd :: toBE 4 n

/-- MessagePack map header (`fixmap`/`map16`/`map32`). -/
def encMapHeader (n : Nat) : List Nat :=
  if n < 16 then [0x80 + n]
  else if n < 65536 then 0xde :: toBE 2 n
  else 0xdf :: toBE 4 n

mutual
/-- Serialize one MessagePack value to bytes (what `rmp_serde` writes). -/
def encMPV : MPV → List Nat
  | .nil => [0xc0]
  | .bool false => [0xc2]
  | .bool true => [0xc3]
  | .int n => encInt n
  | .str s => encStrHeader s.length ++ s
  | .arr xs => encArrHeader xs.length ++ encMPVList xs
  | .map kvs => encMapHeader kvs.length ++ encMPVPairs kvs

def encMPVList : List MPV → List Nat
  | [] => []
  | v :: t => encMPV v ++ encMPVList t

def encMPVPairs : List (MPV × MPV) → List Nat
  | [] => []
  | (k, v) :: t => encMPV k ++ encMPV v ++ encMPVPairs t
end

mutual
/-- Sizes fit the length fields of the formats the encoder can emit. -/
def MPV.wf : MPV → Bool
  | .nil => true
  | .bool _ => true
  | .int n => decide (-(2 ^ 63 : Int) ≤ n ∧ n < 2 ^ 64)
  | .str s => decide (s.length < 2 ^ 32)
  | .arr xs => decide (xs.length < 2 ^ 32) && MPV.wfL xs
  | .map kvs => decide (kvs.length < 2 ^ 32) && MPV.wfP kvs

def MPV.wfL : List MPV → Bool
  | [] => true
  | v :: t => v.wf && MPV.wfL t

def MPV.wfP : List (MPV × MPV) → Bool
  | [] => true
  | (k, v) :: t => k.wf && v.wf && MPV.wfP t
end

mutual
/-- Node count, used as a fuel lower bound for the parser. -/
def nodes : MPV → Nat
  | .nil => 1
  | .bool _ => 1
  | .int _ => 1
  | .str _ => 1
  | .arr xs => 1 + nodesL xs
  | .map kvs => 1 + nodesP kvs

def nodesL : List MPV → Nat
  | [] => 0
  | v :: t => nodes v + nodesL t

def nodesP : List (MPV × MPV) → Nat
  | [] => 0
  | (k, v) :: t => nodes k + nodes v + nodesP t
end

/-- Flatten map entries into the key, value, key, value, ... stream order
in which they appear on the wire. -/
def flattenP : List (MPV × MPV) → List MPV
  | [] => []
  | (k, v) :: t => k :: v :: flattenP t

/-- Re-pair a flat key, value, ... stream. -/
def pairUp : List MPV → List (MPV × MPV)
  | a :: b :: t => (a, b) :: pairUp t
  | _ => []

/-- Outcome of reading one MessagePack marker byte (plus any length or
immediate-payload bytes it carries): either a complete leaf value, or a
collection header announcing `count` child values (`isMap` re-pairs them),
or an unsupported/truncated head. -/
inductive HeadTok where
  | leaf (v : MPV) (rest : List Nat)
  | coll (count : Nat) (isMap : Bool) (rest : List Nat)
  | bad

/-- Classify one marker byte and consume its fixed-size trailer.
Unsupported markers (floats, `bin`, `ext`, the reserved `0xc1`) are `bad`;
so is end-of-input inside a length or immediate payload. -/
def parseHead (b : Nat) (rest : List Nat) : HeadTok :=
  if b < 0x80 then .leaf (.int b) rest
  else if b < 0x90 then .coll (b - 0x80) true rest
  else if b < 0xa0 then .coll (b - 0x90) false rest
  else if b < 0xc0 then
    match takeN (b - 0xa0) rest with
    | some (s, r) => .leaf (.str s) r
    | none => .bad
  else if b = 0xc0 then .leaf .nil rest
  else if b = 0xc2 then .leaf (.bool false) rest
  else if b = 0xc3 then .leaf (.bool true) rest
  else if b = 0xcc then
    match rest with
    | x :: r => .leaf (.int x) r
    | [] => .bad
  else if b = 0xcd then
    match takeN 2 rest with
    | some (u, r) => .leaf (.int (fromBE u)) r
    | none => .bad
  else if b = 0xce then
    match takeN 4 rest with
    | some (u, r) => .leaf (.int (fromBE u)) r
    | none => .bad
  else if b = 0xcf then
    match takeN 8 rest with
    | some (u, r) => .leaf (.int (fromBE u)) r
    | none => .bad
  else if b = 0xd0 then
    match rest with
    | x :: r => .leaf (.int (if x < 128 then (x : Int) else (x : Int) - 256)) r
    | [] => .bad
  else if b = 0xd1 then
    match takeN 2 rest with
    | some (u, r) =>
      .leaf (.int (if fromBE u < 32768 then (fromBE u : Int)
        else (fromBE u : Int) - 65536)) r
    | none => .bad
  else if b = 0xd2 then
    match takeN 4 rest with
    | some (u, r) =>
      .leaf (.int (if fromBE u < 2147483648 then (fromBE u : Int)
        else (fromBE u : Int) - 4294967296)) r
    | none => .bad
  else if b = 0xd3 then
    match takeN 8 rest with
    | some (u, r) =>
      .leaf (.int (if fromBE u < 2 ^ 63 then (fromBE u : Int)
        else (fromBE u : Int) - 2 ^ 64)) r
    | none => .bad
  else if b = 0xd9 then
    match rest with
    | x :: r =>
      match takeN x r with
      | some (s, r2) => .leaf (.str s) r2
      | none => .bad
    | [] => .bad
  else if b = 0xda then
    match takeN 2 rest with
    | some (u, r) =>
      match takeN (fromBE u) r with
      | some (s, r2) => .leaf (.str s) r2
      | none => .bad
    | none => .bad
  else if b = 0xdb then
    match takeN 4 rest with
    | some (u, r) =>
      match takeN (fromBE u) r with
      | some (s, r2) => .leaf (.str s) r2
      | none => .bad
    | none => .bad
  else if b = 0xdc then
    match takeN 2 rest with
    | some (u, r) => .coll (fromBE u) false r
    | none => .bad
  else if b = 0xdd then
    match takeN 4 rest with
    | some (u, r) => .coll (fromBE u) false r
    | none => .bad
  else if b = 0xde then
    match takeN 2 rest with
    | some (u, r) => .coll (fromBE u) true r
    | none => .bad
  else if b = 0xdf then
    match takeN 4 rest with
    | some (u, r) => .coll (fromBE u) true r
    | none => .bad
  else if 0xe0 <= b ∧ b <= 0xff then .leaf (.int ((b : Int) - 256)) rest
  else .bad

/-- Parse `count` consecutive MessagePack values from the byte stream.
`fuel` only forces termination; it is always called with at least the node
count of the parsed values (see `parseMany_encMPVList`), so the `fuel = 0`
failure is unreachable on encoder output. -/
def parseMany : Nat → Nat → List Nat → Option (List MPV × List Nat)
  | _, 0, bytes => some ([], bytes)
  | 0, _ + 1, _ => none
  | f + 1, c + 1, bytes =>
    match bytes with
    | [] => none
    | b :: rest =>
      match parseHead b rest with
      | .leaf v r =>
        match parseMany f c r with
        | some (vs, r2) => some (v :: vs, r2)
        | none => none
      | .coll n isMap r =>
        match parseMany f (if isMap then 2 * n else n) r with
        | some (ws, r2) =>
          match parseMany f c r2 with
          | some (vs, r3) =>
            some ((if isMap then .map (pairUp ws) else .arr ws) :: vs, r3)
          | none => none
        | none => none
      | .bad => none

/-- Parse a single leading value (`rmp_serde::from_slice` reads one value
and ignores anything after it). -/
def parseOne (bs : List Nat) : Option (MPV × List Nat) :=
  match parseMany bs.length 1 bs with
  | some (v :: _, r) => some (v, r)
  | _ => none

/-! ## The serde bridge: `Metadata`/`serde_json::Value` to and from `MPV`

`rmp_serde::to_vec` serializes a struct as a MessagePack array of its
fields in declaration order (no field names) and an `Option` as `nil` or
the value; `serde_json::Value` serializes as the corresponding MessagePack
value with string keys. -/

/-- Serialize an optional string field. -/
def optStrToMPV : Option (List Nat) → MPV
  | none => .nil
  | some s => .str s

mutual
/-- How `serde_json::Value` serializes to MessagePack. -/
def jsonToMPV : Json → MPV
  | .null => .nil
  | .bool b => .bool b
  | .int n => .int n
  | .str s => .str s
  | .arr xs => .arr (jsonToMPVList xs)
  | .obj kvs => .map (jsonToMPVPairs kvs)

def jsonToMPVList : List Json → List MPV
  | [] => []
  | x :: t => jsonToMPV x :: jsonToMPVList t

def jsonToMPVPairs : List (List Nat × Json) → List (MPV × MPV)
  | [] => []
  | (k, v) :: t => (.str k, jsonToMPV v) :: jsonToMPVPairs t
end

/-- `rmp_serde::to_vec(&metadata)`: the 7-field array representation. -/
def metaToMPV (m : Metadata) : MPV :=
  .arr [optStrToMPV m.name, optStrToMPV m.auth, optStrToMPV m.fmt,
        optStrToMPV m.ed, optStrToMPV m.ver, optStrToMPV m.desc,
        jsonToMPV m.extra]

/-- The serialized metadata bytes (`rmp_serde::to_vec`). -/
def encMeta (m : Metadata) : List Nat := encMPV (metaToMPV m)

mutual
/-- Deserializing a MessagePack value into `serde_json::Value`
(`rmp_serde::from_slice::<serde_json::Value>`): map keys must be strings,
maps are built by successive `Map::insert` (later duplicate wins); floats,
`bin` and `ext` never reach this point (the parser rejects them). -/
def mpvToJson : MPV → Except PErr Json
  | .nil => .ok .null
  | .bool b => .ok (.bool b)
  | .int n => .ok (.int n)
  | .str s => .ok (.str s)
  | .arr xs =>
    match mpvToJsonList xs with
    | .ok js => .ok (.arr js)
    | .error e => .error e
  | .map kvs =>
    match mpvToJsonPairs kvs [] with
    | .ok o => .ok (.obj o)
    | .error e => .error e

def mpvToJsonList : List MPV → Except PErr (List Json)
  | [] => .ok []
  | x :: t =>
    match mpvToJson x with
    | .ok j =>
      match mpvToJsonList t with
      | .ok js => .ok (j :: js)
      | .error e => .error e
    | .error e => .error e

def mpvToJsonPairs : List (MPV × MPV) → List (List Nat × Json) →
    Except PErr (List (List Nat × Json))
  | [], acc => .ok acc
  | (k, v) :: t, acc =>
    match k with
    | .str s =>
      match mpvToJson v with
      | .ok jv => mpvToJsonPairs t (insertObj acc s jv)
      | .error e => .error e
    | _ => .error .msgPackDecode
end

/-- Deserialize an `Option<String>` field (serde: `nil` is `None`, a
string is `Some`, anything else is a type error). -/
def decodeOptStr : MPV → Except PErr (Option (List Nat))
  | .nil => .ok none
  | .str s => .ok (some s)
  | _ => .error .msgPackDecode

/-- Field `i` of the array representation; a missing trailing element
falls back to the `#[serde(default)]` value `None`. -/
def seqOptStr (xs : List MPV) (i : Nat) : Except PErr (Option (List Nat)) :=
  match xs.get? i with
  | none => .ok none
  | some v => decodeOptStr v

/-- The `extra` element of the array representation; missing means the
`#[serde(default)]` value `Value::default()`, which is `null`. -/
def seqExtra (xs : List MPV) : Except PErr Json :=
  match xs.get? 6 with
  | none => .ok .null
  | some v => mpvToJson v

/-- Derived `visit_seq` for `Metadata` (array representation). -/
def decodeFromSeq (xs : List MPV) : Except PErr Metadata := do
  let name ← seqOptStr xs 0
  let auth ← seqOptStr xs 1
  let fmt ← seqOptStr xs 2
  let ed ← seqOptStr xs 3
  let ver ← seqOptStr xs 4
  let desc ← seqOptStr xs 5
  let extra ← seqExtra xs
  .ok { name, auth, fmt, ed, ver, desc, extra }

/-- State of the derived `visit_map` for `Metadata`: one slot per declared
field (`none` = not seen yet), plus the unknown key paths in encounter
order (only inspected by the strict-reject policy via `serde_ignored`). -/
structure MapSt where
  name : Option (Option (List Nat)) := none
  auth : Option (Option (List Nat)) := none
  fmt : Option (Option (List Nat)) := none
  ed : Option (Option (List Nat)) := none
  ver : Option (Option (List Nat)) := none
  desc : Option (Option (List Nat)) := none
  extra : Option Json := none
  unknowns : List (List Nat) := []

/-- Derived `visit_map` for `Metadata`: keys must be strings, a repeated
declared field is a duplicate-field error, unknown keys are skipped
(and recorded for `serde_ignored`). -/
def decodeFromMapAux : List (MPV × MPV) → MapSt → Except PErr MapSt
  | [], st => .ok st
  | (k, v) :: t, st =>
    match k with
    | .str s =>
      if s = nameKey then
        match st.name with
        | some _ => .error .msgPackDecode
        | none =>
          match decodeOptStr v with
          | .ok o => decodeFromMapAux t { st with name := some o }
          | .error e => .error e
      else if s = authKey then
        match st.auth with
        | some _ => .error .msgPackDecode
        | none =>
          match decodeOptStr v with
          | .ok o => decodeFromMapAux t { st with auth := some o }
          | .error e => .error e
      else if s = fmtKey then
        match st.fmt with
        | some _ => .error .msgPackDecode
        | none =>
          match decodeOptStr v with
          | .ok o => decodeFromMapAux t { st with fmt := some o }
          | .error e => .error e
      else if s = edKey then
        match st.ed with
        | some _ => .error .msgPackDecode
        | none =>
          match decodeOptStr v with
          | .ok o => decodeFromMapAux t { st with ed := some o }
          | .error e => .error e
      else if s = verKey then
        match st.ver with
        | some _ => .error .msgPackDecode
        | none =>
          match decodeOptStr v with
          | .ok o => decodeFromMapAux t { st with ver := some o }
          | .error e => .error e
      else if s = descKey then
        match st.desc with
        | some _ => .error .msgPackDecode
        | none =>
          match decodeOptStr v with
          | .ok o => decodeFromMapAux t { st with desc := some o }
          | .error e => .error e
      else if s = extraKey then
        match st.extra with
        | some _ => .error .msgPackDecode
        | none =>
          match mpvToJson v with
          | .ok j => decodeFromMapAux t { st with extra := some j }
          | .error e => .error e
      else decodeFromMapAux t { st with unknowns := st.unknowns ++ [s] }
    | _ => .error .msgPackDecode

/-- Fill unseen fields with their `#[serde(default)]` values (`None` for
the identity fields, `null` for `extra`). -/
def finishMap (st : MapSt) : Metadata :=
  { name := st.name.getD none, auth := st.auth.getD none,
    fmt := st.fmt.getD none, ed := st.ed.getD none,
    ver := st.ver.getD none, desc := st.desc.getD none,
    extra := st.extra.getD .null }

/-- `rmp_serde::from_slice::<Metadata>` at the value level: a struct
deserializes from an array (field order) or a map (field names). -/
def decodeMetaOn : MPV → Except PErr Metadata
  | .arr xs => decodeFromSeq xs
  | .map kvs =>
    match decodeFromMapAux kvs {} with
    | .ok st => .ok (finishMap st)
    | .error e => .error e
  | _ => .error .msgPackDecode

/-- `unknown_fields.join(", ")`: the byte list of the joined paths. -/
def joinCS : List (List Nat) → List Nat
  | [] => []
  | [s] => s
  | s :: t => s ++ [44, 32] ++ joinCS t

/-- The strict-reject policy: `serde_ignored::deserialize`, then fail with
the joined unknown paths when any value was ignored. -/
def decodeMetaOff : MPV → Except PErr Metadata
  | .arr xs => decodeFromSeq xs
  | .map kvs =>
    match decodeFromMapAux kvs {} with
    | .ok st =>
      if st.unknowns.isEmpty then .ok (finishMap st)
      else .error (.unknownFields (joinCS st.unknowns))
    | .error e => .error e
  | _ => .error .msgPackDecode

/-- `known_fields.contains(&key.as_str())` for the seven declared names. -/
def isKnownKey (k : List Nat) : Bool :=
  decide (k = nameKey) || decide (k = authKey) || decide (k = fmtKey) ||
  decide (k = edKey) || decide (k = verKey) || decide (k = descKey) ||
  decide (k = extraKey)

/-- Partition the decoded object's entries into known and unknown maps in
iteration order. -/
def partitionKnown (kvs : List (List Nat × Json)) :
    List (List Nat × Json) × List (List Nat × Json) :=
  kvs.foldl
    (fun acc kv =>
      if isKnownKey kv.1 then (insertObj acc.1 kv.1 kv.2, acc.2)
      else (acc.1, insertObj acc.2 kv.1 kv.2))
    ([], [])

/-- `serde_json::from_value` for an optional string field. -/
def jsonOptStr (kvs : List (List Nat × Json)) (key : List Nat) :
    Except PErr (Option (List Nat)) :=
  match lookupObj kvs key with
  | none => .ok none
  | some .null => .ok none
  | some (.str s) => .ok (some s)
  | some _ => .error .jsonError

/-- `serde_json::from_value::<Metadata>` on the known-field object: the
`extra` field is taken verbatim, missing fields get their defaults. -/
def decodeFromJsonObj (kvs : List (List Nat × Json)) : Except PErr Metadata := do
  let name ← jsonOptStr kvs nameKey
  let auth ← jsonOptStr kvs authKey
  let fmt ← jsonOptStr kvs fmtKey
  let ed ← jsonOptStr kvs edKey
  let ver ← jsonOptStr kvs verKey
  let desc ← jsonOptStr kvs descKey
  let extra := (lookupObj kvs extraKey).getD .null
  .ok { name, auth, fmt, ed, ver, desc, extra }

/-- The export-to-extension policy: decode to a generic value; if it is an
object, split keys into known and unknown, build the record from the known
part and merge the unknown part into `extra.ignored`; otherwise fall back
to the direct struct deserialization. -/
def decodeMetaExport (v : MPV) : Except PErr Metadata :=
  match mpvToJson v with
  | .error e => .error e
  | .ok j =>
    match j with
    | .obj kvs =>
      let p := partitionKnown kvs
      match decodeFromJsonObj p.1 with
      | .error e => .error e
      | .ok m =>
        if p.2.isEmpty then .ok m
        else .ok (m.merge_unknown_fields (.obj p.2))
    | _ => decodeMetaOn v

/-- Dispatch on the unknown-field policy (the `match ignore_unknown` at
`lib.rs:351`). -/
def decodePolicy : IgnoreUnknown → MPV → Except PErr Metadata
  | .on, v => decodeMetaOn v
  | .off, v => decodeMetaOff v
  | .export_, v => decodeMetaExport v

/-- Decode the collected metadata bytes under a policy: parse one
MessagePack value, then interpret it. -/
def decodeMetadataBytes (iu : IgnoreUnknown) (bs : List Nat) :
    Except PErr Metadata :=
  match parseOne bs with
  | some (v, _) => decodePolicy iu v
  | none => .error .msgPackDecode

/-! ## The container framing loop (`read_metadata_from_file`, lines 300-410)

The open `File` is modelled by the list of bytes not yet read; success and
failure results carry the remaining suffix (the final cursor position).
When `read_exact` fails with `UnexpectedEof` the cursor is at end-of-input
(all remaining bytes consumed), modelled by the empty remainder. -/

/-- One pass of the `loop` at `lib.rs:303`: read a 4-byte tag; end of
input breaks (with collected metadata) or fails (`InvalidFileHeader`, if
nothing was collected); a tag in the skippable range reads a 4-byte
little-endian length, bounds-checks the total against
`MAX_METADATA_SIZE`, reads the payload and loops; any other tag seeks back
4 bytes and breaks. `fuel` only forces termination (each iteration
consumes 8 or more bytes, so `bytes.length + 1` is always enough, see
`readLoop_fuel`). -/
def readLoop : Nat → List Nat → List Nat →
    Except (PErr × List Nat) (List Nat × List Nat)
  | 0, bytes, _ => .error (.ioUnexpectedEof, bytes)
  | f + 1, bytes, acc =>
    if bytes.length < 4 then
      if acc.isEmpty then .error (.invalidFileHeader, [])
      else .ok (acc, [])
    else
      let magic := fromLE (bytes.take 4)
      if SKIPPABLE_FRAME_MAGIC_MIN ≤ magic ∧ magic ≤ SKIPPABLE_FRAME_MAGIC_MAX then
        let r1 := bytes.drop 4
        if r1.length < 4 then .error (.ioUnexpectedEof, [])
        else
          let frame_size := fromLE (r1.take 4)
          let r2 := r1.drop 4
          if acc.length + frame_size > MAX_METADATA_SIZE then
            .error (.invalidMetadataLength frame_size, r2)
          else if r2.length < frame_size then .error (.ioUnexpectedEof, [])
          else readLoop f (r2.drop frame_size) (acc ++ r2.take frame_size)
      else .ok (acc, bytes)

/-- The post-loop half of `read_metadata_from_file` (lines 345-409):
reject if no metadata bytes were collected, then decode them under the
policy, pairing the record with the remaining bytes. -/
def finishRead (ignore_unknown : IgnoreUnknown) :
    Except (PErr × List Nat) (List Nat × List Nat) →
      Except PErr (Metadata × List Nat)
  | .error (e, _) => .error e
  | .ok (metadata_bytes, rest) =>
    if metadata_bytes.isEmpty then .error .invalidFileHeader
    else
      match decodeMetadataBytes ignore_unknown metadata_bytes with
      | .ok m => .ok (m, rest)
      | .error e => .error e

/-- `read_metadata_from_file`: run the framing loop, reject if no metadata
bytes were collected, then decode under the policy. Returns the record and
the remaining bytes (the cursor left at the start of the compressed
stream). -/
def read_metadata_from_file (bytes : List Nat) (ignore_unknown : IgnoreUnknown) :
    Except PErr (Metadata × List Nat) :=
  finishRead ignore_unknown (readLoop (bytes.length + 1) bytes [])

/-! ## `pack` (lines 229-296)

The filesystem side (source-directory existence, reading the extra JSON
side-file, creating directories, the tar/zstd payload) belongs to the
excluded external collaborators; `extra_file` stands for the already
parsed content of the side-file, and `pack` returns the bytes it writes
before the compressed payload. -/

/-- The metadata record `pack` actually serializes: the extra side-file
content, when given, replaces `extra` wholesale (`lib.rs:252-258`). -/
def pack_metadata (metadata : Metadata) (extra_file : Option Json) : Metadata :=
  match extra_file with
  | some j => { metadata with extra := j }
  | none => metadata

/-- `pack`: serialize the metadata, reject when the encoded size exceeds
`MAX_METADATA_SIZE`, else emit one skippable frame
(magic, little-endian length, payload); the compressed tar stream is
appended after these bytes by the external collaborators. -/
def pack (metadata : Metadata) (extra_file : Option Json) :
    Except PErr (List Nat) :=
  let m := pack_metadata metadata extra_file
  let metadata_bytes := encMeta m
  let metadata_len := metadata_bytes.length
  if metadata_len > MAX_METADATA_SIZE then
    .error (.invalidMetadataLength metadata_len)
  else
    .ok (toLE 4 METADATA_FRAME_MAGIC ++ toLE 4 metadata_len ++ metadata_bytes)

/-- A single skippable frame with the given tag carrying `payload`. -/
def mkFrame (tag : Nat) (payload : List Nat) : List Nat :=
  toLE 4 tag ++ toLE 4 payload.length ++ payload

/-! ## Framing lemmas -/

theorem readLoop_fuel : ∀ (f1 f2 : Nat) (bytes acc : List Nat),
    bytes.length < 8 * f1 → bytes.length < 8 * f2 →
    readLoop f1 bytes acc = readLoop f2 bytes acc := by
  intro f1
  induction f1 with
  | zero => intro f2 bytes acc h1 _; omega
  | succ f1 ih =>
    intro f2 bytes acc h1 h2
    cases f2 with
    | zero => omega
    | succ f2 =>
      simp only [readLoop]
      split_ifs with h1 h2 h3 h4 h5 h6 <;> try rfl
      apply ih <;> simp only [List.length_drop] at h4 h6 ⊢ <;> omega

theorem readLoop_frame_step (f tag : Nat) (payload X acc : List Nat)
    (htag1 : SKIPPABLE_FRAME_MAGIC_MIN ≤ tag)
    (htag2 : tag ≤ SKIPPABLE_FRAME_MAGIC_MAX)
    (hlen : payload.length < 2 ^ 32)
    (hmax : acc.length + payload.length ≤ MAX_METADATA_SIZE) :
    readLoop (f + 1) (mkFrame tag payload ++ X) acc =
      readLoop f X (acc ++ payload) := by
  have htag : tag < 256 ^ 4 := by
    simp only [SKIPPABLE_FRAME_MAGIC_MAX] at htag2
    norm_num
    omega
  have hplen : payload.length < 256 ^ 4 := by norm_num at hlen ⊢; omega
  simp only [readLoop, mkFrame, List.append_assoc]
  rw [List.take_left' (by simp), List.drop_left' (by simp)]
  rw [fromLE_toLE_of_lt htag]
  have hnot4 : ¬ (toLE 4 tag ++ (toLE 4 payload.length ++ (payload ++ X))).length < 4 := by
    simp
  rw [if_neg hnot4, if_pos ⟨htag1, htag2⟩]
  rw [List.take_left' (by simp), List.drop_left' (by simp)]
  rw [fromLE_toLE_of_lt hplen]
  have hnot4' : ¬ (toLE 4 payload.length ++ (payload ++ X)).length < 4 := by simp
  rw [if_neg hnot4']
  rw [if_neg (by omega)]
  rw [List.take_left, List.drop_left]
  rw [if_neg (by simp)]

theorem readLoop_nonskip_stop (f : Nat) (X acc : List Nat)
    (hlen : 4 ≤ X.length)
    (hmagic : ¬ (SKIPPABLE_FRAME_MAGIC_MIN ≤ fromLE (X.take 4) ∧
      fromLE (X.take 4) ≤ SKIPPABLE_FRAME_MAGIC_MAX)) :
    readLoop (f + 1) X acc = .ok (acc, X) := by
  simp only [readLoop]
  rw [if_neg (by omega), if_neg hmagic]

theorem readLoop_eof (f : Nat) (X acc : List Nat) (hlen : X.length < 4)
    (hacc : ¬ acc.isEmpty) :
    readLoop (f + 1) X acc = .ok (acc, []) := by
  simp only [readLoop]
  rw [if_pos hlen, if_neg hacc]

theorem readLoop_eof_empty (f : Nat) (X : List Nat) (hlen : X.length < 4) :
    readLoop (f + 1) X [] = .error (.invalidFileHeader, []) := by
  simp only [readLoop]
  rw [if_pos hlen, if_pos (by rfl)]

/-- On success the remaining bytes are a suffix of the input, and either
everything was consumed or the next 4 bytes form a tag outside the
skippable range. -/
theorem readLoop_ok_position : ∀ (f : Nat) (bytes acc md rest : List Nat),
    readLoop f bytes acc = .ok (md, rest) →
    (∃ k, rest = bytes.drop k) ∧
      (rest = [] ∨ (4 ≤ rest.length ∧
        ¬ (SKIPPABLE_FRAME_MAGIC_MIN ≤ fromLE (rest.take 4) ∧
          fromLE (rest.take 4) ≤ SKIPPABLE_FRAME_MAGIC_MAX))) := by
  intro f
  induction f with
  | zero => intro bytes acc md rest h; exact absurd h (by simp [readLoop])
  | succ f ih =>
    intro bytes acc md rest h
    simp only [readLoop] at h
    by_cases h4 : bytes.length < 4
    · rw [if_pos h4] at h
      by_cases hacc : acc.isEmpty
      · rw [if_pos hacc] at h; exact absurd h (by simp)
      · rw [if_neg hacc] at h
        simp only [Except.ok.injEq, Prod.mk.injEq] at h
        obtain ⟨-, h2⟩ := h
        subst h2
        exact ⟨⟨bytes.length, by simp⟩, Or.inl rfl⟩
    · rw [if_neg h4] at h
      by_cases hmagic : SKIPPABLE_FRAME_MAGIC_MIN ≤ fromLE (bytes.take 4) ∧
          fromLE (bytes.take 4) ≤ SKIPPABLE_FRAME_MAGIC_MAX
      · rw [if_pos hmagic] at h
        by_cases h4' : (bytes.drop 4).length < 4
        · rw [if_pos h4'] at h; exact absurd h (by simp)
        · rw [if_neg h4'] at h
          by_cases hbound : acc.length + fromLE ((bytes.drop 4).take 4) >
              MAX_METADATA_SIZE
          · rw [if_pos hbound] at h; exact absurd h (by simp)
          · rw [if_neg hbound] at h
            by_cases hshort : ((bytes.drop 4).drop 4).length <
                fromLE ((bytes.drop 4).take 4)
            · rw [if_pos hshort] at h; exact absurd h (by simp)
            · rw [if_neg hshort] at h
              obtain ⟨⟨k, hk⟩, hbd⟩ := ih _ _ _ _ h
              refine ⟨⟨8 + fromLE ((bytes.drop 4).take 4) + k, ?_⟩, hbd⟩
              rw [hk]
              simp only [List.drop_drop]
      · rw [if_neg hmagic] at h
        simp only [Except.ok.injEq, Prod.mk.injEq] at h
        obtain ⟨-, h2⟩ := h
        subst h2
        exact ⟨⟨0, by simp⟩, Or.inr ⟨by omega, hmagic⟩⟩

/-! ## Parser round-trip: support lemmas -/

theorem nodes_pos (v : MPV) : 1 ≤ nodes v := by
  cases v <;> simp [nodes]

theorem encMPVPairs_eq_flatten : ∀ kvs : List (MPV × MPV),
    encMPVPairs kvs = encMPVList (flattenP kvs) := by
  intro kvs
  induction kvs with
  | nil => rfl
  | cons kv t ih =>
    obtain ⟨k, v⟩ := kv
    simp [encMPVPairs, flattenP, encMPVList, ih]

theorem flattenP_length : ∀ kvs : List (MPV × MPV),
    (flattenP kvs).length = 2 * kvs.length := by
  intro kvs
  induction kvs with
  | nil => rfl
  | cons kv t ih =>
    obtain ⟨k, v⟩ := kv
    simp [flattenP, ih]
    omega

theorem pairUp_flattenP : ∀ kvs : List (MPV × MPV),
    pairUp (flattenP kvs) = kvs := by
  intro kvs
  induction kvs with
  | nil => rfl
  | cons kv t ih =>
    obtain ⟨k, v⟩ := kv
    simp [flattenP, pairUp, ih]

theorem nodesP_eq_flatten : ∀ kvs : List (MPV × MPV),
    nodesP kvs = nodesL (flattenP kvs) := by
  intro kvs
  induction kvs with
  | nil => rfl
  | cons kv t ih =>
    obtain ⟨k, v⟩ := kv
    simp [nodesP, flattenP, nodesL, ih]
    omega

theorem wfP_flatten : ∀ kvs : List (MPV × MPV),
    MPV.wfP kvs = true → MPV.wfL (flattenP kvs) = true := by
  intro kvs
  induction kvs with
  | nil => intro _; rfl
  | cons kv t ih =>
    obtain ⟨k, v⟩ := kv
    intro h
    simp only [MPV.wfP, Bool.and_eq_true] at h
    simp only [flattenP, MPV.wfL, Bool.and_eq_true]
    exact ⟨h.1.1, h.1.2, ih h.2⟩

theorem encInt_length_pos (n : Int) : 1 ≤ (encInt n).length := by
  simp only [encInt]
  split_ifs <;> simp

theorem encStrHeader_length_pos (n : Nat) : 1 ≤ (encStrHeader n).length := by
  unfold encStrHeader
  split_ifs <;> simp

theorem encArrHeader_length_pos (n : Nat) : 1 ≤ (encArrHeader n).length := by
  unfold encArrHeader
  split_ifs <;> simp

theorem encMapHeader_length_pos (n : Nat) : 1 ≤ (encMapHeader n).length := by
  unfold encMapHeader
  split_ifs <;> simp

mutual
theorem nodes_le_enc : ∀ v : MPV, nodes v ≤ (encMPV v).length
  | .nil => by simp [nodes, encMPV]
  | .bool b => by cases b <;> simp [nodes, encMPV]
  | .int n => by
    have := encInt_length_pos n
    simp only [nodes, encMPV]
    omega
  | .str s => by
    have := encStrHeader_length_pos s.length
    simp only [nodes, encMPV, List.length_append]
    omega
  | .arr xs => by
    have h1 := encArrHeader_length_pos xs.length
    have h2 := nodesL_le_enc xs
    simp only [nodes, encMPV, List.length_append]
    omega
  | .map kvs => by
    have h1 := encMapHeader_length_pos kvs.length
    have h2 := nodesP_le_enc kvs
    simp only [nodes, encMPV, List.length_append]
    omega

theorem nodesL_le_enc : ∀ xs : List MPV, nodesL xs ≤ (encMPVList xs).length
  | [] => by simp [nodesL, encMPVList]
  | v :: t => by
    have h1 := nodes_le_enc v
    have h2 := nodesL_le_enc t
    simp only [nodesL, encMPVList, List.length_append]
    omega

theorem nodesP_le_enc : ∀ kvs : List (MPV × MPV), nodesP kvs ≤ (encMPVPairs kvs).length
  | [] => by simp [nodesP, encMPVPairs]
  | (k, v) :: t => by
    have h1 := nodes_le_enc k
    have h2 := nodes_le_enc v
    have h3 := nodesP_le_enc t
    simp only [nodesP, encMPVPairs, List.length_append]
    omega
end

/-! ## Parser round-trip: head-classification and step lemmas -/

theorem phead_posfix (b : Nat) (X : List Nat) (hb : b < 128) :
    parseHead b X = .leaf (.int b) X := by
  unfold parseHead
  rw [if_pos hb]

theorem phead_negfix (b : Nat) (X : List Nat) (hb1 : 224 ≤ b) (hb2 : b ≤ 255) :
    parseHead b X = .leaf (.int ((b : Int) - 256)) X := by
  unfold parseHead
  rw [if_neg (show ¬ b < 128 by omega), if_neg (show ¬ b < 144 by omega),
    if_neg (show ¬ b < 160 by omega), if_neg (show ¬ b < 192 by omega),
    if_neg (show ¬ b = 192 by omega), if_neg (show ¬ b = 194 by omega),
    if_neg (show ¬ b = 195 by omega), if_neg (show ¬ b = 204 by omega),
    if_neg (show ¬ b = 205 by omega), if_neg (show ¬ b = 206 by omega),
    if_neg (show ¬ b = 207 by omega), if_neg (show ¬ b = 208 by omega),
    if_neg (show ¬ b = 209 by omega), if_neg (show ¬ b = 210 by omega),
    if_neg (show ¬ b = 211 by omega), if_neg (show ¬ b = 217 by omega),
    if_neg (show ¬ b = 218 by omega), if_neg (show ¬ b = 219 by omega),
    if_neg (show ¬ b = 220 by omega), if_neg (show ¬ b = 221 by omega),
    if_neg (show ¬ b = 222 by omega), if_neg (show ¬ b = 223 by omega),
    if_pos (show 224 ≤ b ∧ b ≤ 255 from ⟨hb1, hb2⟩)]

theorem phead_nil (X : List Nat) : parseHead 0xc0 X = .leaf .nil X := rfl

theorem phead_false (X : List Nat) : parseHead 0xc2 X = .leaf (.bool false) X := rfl

theorem phead_true (X : List Nat) : parseHead 0xc3 X = .leaf (.bool true) X := rfl

theorem phead_u8 (x : Nat) (X : List Nat) :
    parseHead 0xcc (x :: X) = .leaf (.int x) X := rfl

theorem phead_u16 (m : Nat) (X : List Nat) (hm : m < 256 ^ 2) :
    parseHead 0xcd (toBE 2 m ++ X) = .leaf (.int m) X := by
  show (match takeN 2 (toBE 2 m ++ X) with
    | some (u, r) => HeadTok.leaf (.int (fromBE u)) r
    | none => .bad) = _
  rw [takeN_append (toBE_length 2 m) X]
  simp only [fromBE_toBE_of_lt hm]

theorem phead_u32 (m : Nat) (X : List Nat) (hm : m < 256 ^ 4) :
    parseHead 0xce (toBE 4 m ++ X) = .leaf (.int m) X := by
  show (match takeN 4 (toBE 4 m ++ X) with
    | some (u, r) => HeadTok.leaf (.int (fromBE u)) r
    | none => .bad) = _
  rw [takeN_append (toBE_length 4 m) X]
  simp only [fromBE_toBE_of_lt hm]

theorem phead_u64 (m : Nat) (X : List Nat) (hm : m < 256 ^ 8) :
    parseHead 0xcf (toBE 8 m ++ X) = .leaf (.int m) X := by
  show (match takeN 8 (toBE 8 m ++ X) with
    | some (u, r) => HeadTok.leaf (.int (fromBE u)) r
    | none => .bad) = _
  rw [takeN_append (toBE_length 8 m) X]
  simp only [fromBE_toBE_of_lt hm]

theorem phead_i8 (x : Nat) (X : List Nat) (hx : 128 ≤ x) :
    parseHead 0xd0 (x :: X) =
      .leaf (.int ((x : Int) - 256)) X := by
  show HeadTok.leaf (.int (if x < 128 then (x : Int) else (x : Int) - 256)) X = _
  rw [if_neg (show ¬ x < 128 by omega)]

theorem phead_i16 (u : Nat) (X : List Nat) (hu1 : 32768 ≤ u) (hu2 : u < 256 ^ 2) :
    parseHead 0xd1 (toBE 2 u ++ X) = .leaf (.int ((u : Int) - 65536)) X := by
  show (match takeN 2 (toBE 2 u ++ X) with
    | some (w, r) =>
      HeadTok.leaf (.int (if fromBE w < 32768 then (fromBE w : Int)
        else (fromBE w : Int) - 65536)) r
    | none => .bad) = _
  rw [takeN_append (toBE_length 2 u) X]
  simp only [fromBE_toBE_of_lt hu2, if_neg (show ¬ u < 32768 by omega)]

theorem phead_i32 (u : Nat) (X : List Nat) (hu1 : 2147483648 ≤ u)
    (hu2 : u < 256 ^ 4) :
    parseHead 0xd2 (toBE 4 u ++ X) = .leaf (.int ((u : Int) - 4294967296)) X := by
  show (match takeN 4 (toBE 4 u ++ X) with
    | some (w, r) =>
      HeadTok.leaf (.int (if fromBE w < 2147483648 then (fromBE w : Int)
        else (fromBE w : Int) - 4294967296)) r
    | none => .bad) = _
  rw [takeN_append (toBE_length 4 u) X]
  simp only [fromBE_toBE_of_lt hu2, if_neg (show ¬ u < 2147483648 by omega)]

theorem phead_i64 (u : Nat) (X : List Nat) (hu1 : 2 ^ 63 ≤ u) (hu2 : u < 256 ^ 8) :
    parseHead 0xd3 (toBE 8 u ++ X) = .leaf (.int ((u : Int) - 2 ^ 64)) X := by
  show (match takeN 8 (toBE 8 u ++ X) with
    | some (w, r) =>
      HeadTok.leaf (.int (if fromBE w < 2 ^ 63 then (fromBE w : Int)
        else (fromBE w : Int) - 2 ^ 64)) r
    | none => .bad) = _
  rw [takeN_append (toBE_length 8 u) X]
  simp only [fromBE_toBE_of_lt hu2, if_neg (show ¬ u < 2 ^ 63 by omega)]

theorem phead_fixstr (n : Nat) (s X : List Nat) (hn : n < 32)
    (hs : s.length = n) :
    parseHead (160 + n) (s ++ X) = .leaf (.str s) X := by
  unfold parseHead
  rw [if_neg (show ¬ 160 + n < 128 by omega),
    if_neg (show ¬ 160 + n < 144 by omega),
    if_neg (show ¬ 160 + n < 160 by omega),
    if_pos (show 160 + n < 192 by omega)]
  simp only [show 160 + n - 160 = n by omega, takeN_append hs X]

theorem phead_str8 (n : Nat) (s X : List Nat) (hs : s.length = n) :
    parseHead 0xd9 (n :: (s ++ X)) = .leaf (.str s) X := by
  show (match takeN n (s ++ X) with
    | some (w, r2) => HeadTok.leaf (.str w) r2
    | none => .bad) = _
  rw [takeN_append hs X]

theorem phead_str16 (n : Nat) (s X : List Nat) (hn : n < 256 ^ 2)
    (hs : s.length = n) :
    parseHead 0xda (toBE 2 n ++ (s ++ X)) = .leaf (.str s) X := by
  show (match takeN 2 (toBE 2 n ++ (s ++ X)) with
    | some (u, r) =>
      match takeN (fromBE u) r with
      | some (w, r2) => HeadTok.leaf (.str w) r2
      | none => HeadTok.bad
    | none => .bad) = _
  rw [takeN_append (toBE_length 2 n) (s ++ X)]
  simp only [fromBE_toBE_of_lt hn, takeN_append hs X]

theorem phead_str32 (n : Nat) (s X : List Nat) (hn : n < 256 ^ 4)
    (hs : s.length = n) :
    parseHead 0xdb (toBE 4 n ++ (s ++ X)) = .leaf (.str s) X := by
  show (match takeN 4 (toBE 4 n ++ (s ++ X)) with
    | some (u, r) =>
      match takeN (fromBE u) r with
      | some (w, r2) => HeadTok.leaf (.str w) r2
      | none => HeadTok.bad
    | none => .bad) = _
  rw [takeN_append (toBE_length 4 n) (s ++ X)]
  simp only [fromBE_toBE_of_lt hn, takeN_append hs X]

theorem phead_fixarr (n : Nat) (X : List Nat) (hn : n < 16) :
    parseHead (144 + n) X = .coll n false X := by
  unfold parseHead
  rw [if_neg (show ¬ 144 + n < 128 by omega),
    if_neg (show ¬ 144 + n < 144 by omega),
    if_pos (show 144 + n < 160 by omega)]
  simp only [show 144 + n - 144 = n by omega]

theorem phead_arr16 (n : Nat) (X : List Nat) (hn : n < 256 ^ 2) :
    parseHead 0xdc (toBE 2 n ++ X) = .coll n false X := by
  show (match takeN 2 (toBE 2 n ++ X) with
    | some (u, r) => HeadTok.coll (fromBE u) false r
    | none => .bad) = _
  rw [takeN_append (toBE_length 2 n) X]
  simp only [fromBE_toBE_of_lt hn]

theorem phead_arr32 (n : Nat) (X : List Nat) (hn : n < 256 ^ 4) :
    parseHead 0xdd (toBE 4 n ++ X) = .coll n false X := by
  show (match takeN 4 (toBE 4 n ++ X) with
    | some (u, r) => HeadTok.coll (fromBE u) false r
    | none => .bad) = _
  rw [takeN_append (toBE_length 4 n) X]
  simp only [fromBE_toBE_of_lt hn]

theorem phead_fixmap (n : Nat) (X : List Nat) (hn : n < 16) :
    parseHead (128 + n) X = .coll n true X := by
  unfold parseHead
  rw [if_neg (show ¬ 128 + n < 128 by omega),
    if_pos (show 128 + n < 144 by omega)]
  simp only [show 128 + n - 128 = n by omega]

theorem phead_map16 (n : Nat) (X : List Nat) (hn : n < 256 ^ 2) :
    parseHead 0xde (toBE 2 n ++ X) = .coll n true X := by
  show (match takeN 2 (toBE 2 n ++ X) with
    | some (u, r) => HeadTok.coll (fromBE u) true r
    | none => .bad) = _
  rw [takeN_append (toBE_length 2 n) X]
  simp only [fromBE_toBE_of_lt hn]

theorem phead_map32 (n : Nat) (X : List Nat) (hn : n < 256 ^ 4) :
    parseHead 0xdf (toBE 4 n ++ X) = .coll n true X := by
  show (match takeN 4 (toBE 4 n ++ X) with
    | some (u, r) => HeadTok.coll (fromBE u) true r
    | none => .bad) = _
  rw [takeN_append (toBE_length 4 n) X]
  simp only [fromBE_toBE_of_lt hn]

/-- One parsed leaf value followed by the continuation. -/
theorem parseMany_cons_leaf (f c b : Nat) (X r : List Nat) (v : MPV)
    (vs : List MPV) (r2 : List Nat)
    (hh : parseHead b X = .leaf v r)
    (h : parseMany f c r = some (vs, r2)) :
    parseMany (f + 1) (c + 1) (b :: X) = some (v :: vs, r2) := by
  simp only [parseMany, hh, h]

/-- One parsed array header, its children, and the continuation. -/
theorem parseMany_cons_arr (f c b n : Nat) (X Y r2 : List Nat)
    (ws vs : List MPV) (r3 : List Nat)
    (hh : parseHead b X = .coll n false Y)
    (h1 : parseMany f n Y = some (ws, r2))
    (h2 : parseMany f c r2 = some (vs, r3)) :
    parseMany (f + 1) (c + 1) (b :: X) = some (.arr ws :: vs, r3) := by
  simp only [parseMany, hh, if_neg (Bool.false_ne_true), h1, h2]

/-- One parsed map header, its flattened children, and the continuation. -/
theorem parseMany_cons_map (f c b n : Nat) (X Y r2 : List Nat)
    (ws vs : List MPV) (r3 : List Nat)
    (hh : parseHead b X = .coll n true Y)
    (h1 : parseMany f (2 * n) Y = some (ws, r2))
    (h2 : parseMany f c r2 = some (vs, r3)) :
    parseMany (f + 1) (c + 1) (b :: X) = some (.map (pairUp ws) :: vs, r3) := by
  simp only [parseMany, hh, eq_self_iff_true, if_true, h1, h2]

/-! ## Parser round-trip: encoder-branch lemmas and the main induction -/

theorem parseMany_cons_encInt (f c : Nat) (n : Int) (X : List Nat)
    (vs : List MPV) (r2 : List Nat)
    (hlo : -(2 ^ 63 : Int) ≤ n) (hhi : n < 2 ^ 64)
    (h : parseMany f c X = some (vs, r2)) :
    parseMany (f + 1) (c + 1) (encInt n ++ X) = some (.int n :: vs, r2) := by
  by_cases h0 : 0 ≤ n
  · have hmt : n.toNat % 2 ^ 64 = n.toNat := Nat.mod_eq_of_lt (by omega)
    simp only [encInt, if_pos h0, hmt]
    split_ifs with hA hB hC hD
    · simpa only [Int.toNat_of_nonneg h0] using
        parseMany_cons_leaf f c n.toNat X X (.int n.toNat) vs r2
          (phead_posfix n.toNat X hA) h
    · simpa only [Int.toNat_of_nonneg h0] using
        parseMany_cons_leaf f c 0xcc (n.toNat :: X) X (.int n.toNat) vs r2
          (phead_u8 n.toNat X) h
    · simpa only [Int.toNat_of_nonneg h0] using
        parseMany_cons_leaf f c 0xcd (toBE 2 n.toNat ++ X) X (.int n.toNat) vs r2
          (phead_u16 n.toNat X (by norm_num; omega)) h
    · simpa only [Int.toNat_of_nonneg h0] using
        parseMany_cons_leaf f c 0xce (toBE 4 n.toNat ++ X) X (.int n.toNat) vs r2
          (phead_u32 n.toNat X (by norm_num; omega)) h
    · simpa only [Int.toNat_of_nonneg h0] using
        parseMany_cons_leaf f c 0xcf (toBE 8 n.toNat ++ X) X (.int n.toNat) vs r2
          (phead_u64 n.toNat X (by norm_num; omega)) h
  · simp only [encInt, if_neg h0]
    split_ifs with hA hB hC hD
    · simpa only [show ((n + 256).toNat : Int) - 256 = n by omega] using
        parseMany_cons_leaf f c (n + 256).toNat X X
          (.int (((n + 256).toNat : Int) - 256)) vs r2
          (phead_negfix (n + 256).toNat X (by omega) (by omega)) h
    · simpa only [show ((n + 256).toNat : Int) - 256 = n by omega] using
        parseMany_cons_leaf f c 0xd0 ((n + 256).toNat :: X) X
          (.int (((n + 256).toNat : Int) - 256)) vs r2
          (phead_i8 (n + 256).toNat X (by omega)) h
    · simpa only [show ((n + 65536).toNat : Int) - 65536 = n by omega] using
        parseMany_cons_leaf f c 0xd1 (toBE 2 (n + 65536).toNat ++ X) X
          (.int (((n + 65536).toNat : Int) - 65536)) vs r2
          (phead_i16 (n + 65536).toNat X (by omega) (by norm_num; omega)) h
    · simpa only [show ((n + 4294967296).toNat : Int) - 4294967296 = n by omega]
        using parseMany_cons_leaf f c 0xd2 (toBE 4 (n + 4294967296).toNat ++ X) X
          (.int (((n + 4294967296).toNat : Int) - 4294967296)) vs r2
          (phead_i32 (n + 4294967296).toNat X (by omega) (by norm_num; omega)) h
    · have hmod : (n + 18446744073709551616).toNat % 2 ^ 64 =
          (n + 18446744073709551616).toNat := Nat.mod_eq_of_lt (by omega)
      rw [hmod]
      simpa only [show ((n + 18446744073709551616).toNat : Int) - 2 ^ 64 = n by
          omega] using
        parseMany_cons_leaf f c 0xd3 (toBE 8 (n + 18446744073709551616).toNat ++ X)
          X (.int (((n + 18446744073709551616).toNat : Int) - 2 ^ 64)) vs r2
          (phead_i64 (n + 18446744073709551616).toNat X (by omega)
            (by norm_num; omega)) h

theorem parseMany_cons_encStr (f c : Nat) (s X : List Nat)
    (vs : List MPV) (r2 : List Nat)
    (hs : s.length < 2 ^ 32)
    (h : parseMany f c X = some (vs, r2)) :
    parseMany (f + 1) (c + 1) (encStrHeader s.length ++ (s ++ X)) =
      some (.str s :: vs, r2) := by
  unfold encStrHeader
  split_ifs with hA hB hC
  · exact parseMany_cons_leaf f c (160 + s.length) (s ++ X) X (.str s) vs r2
      (phead_fixstr s.length s X hA rfl) h
  · exact parseMany_cons_leaf f c 0xd9 (s.length :: (s ++ X)) X (.str s) vs r2
      (phead_str8 s.length s X rfl) h
  · exact parseMany_cons_leaf f c 0xda (toBE 2 s.length ++ (s ++ X)) X (.str s)
      vs r2 (phead_str16 s.length s X (by norm_num; omega) rfl) h
  · exact parseMany_cons_leaf f c 0xdb (toBE 4 s.length ++ (s ++ X)) X (.str s)
      vs r2 (phead_str32 s.length s X (by norm_num; omega) rfl) h

theorem parseMany_cons_encArrH (f c n : Nat) (Z Y : List Nat)
    (ws vs : List MPV) (r3 : List Nat)
    (hn : n < 2 ^ 32)
    (h1 : parseMany f n Z = some (ws, Y))
    (h2 : parseMany f c Y = some (vs, r3)) :
    parseMany (f + 1) (c + 1) (encArrHeader n ++ Z) = some (.arr ws :: vs, r3) := by
  unfold encArrHeader
  split_ifs with hA hB
  · exact parseMany_cons_arr f c (144 + n) n Z Z Y ws vs r3
      (phead_fixarr n Z hA) h1 h2
  · exact parseMany_cons_arr f c 0xdc n (toBE 2 n ++ Z) Z Y ws vs r3
      (phead_arr16 n Z (by norm_num; omega)) h1 h2
  · exact parseMany_cons_arr f c 0xdd n (toBE 4 n ++ Z) Z Y ws vs r3
      (phead_arr32 n Z (by norm_num; omega)) h1 h2

theorem parseMany_cons_encMapH (f c n : Nat) (Z Y : List Nat)
    (ws vs : List MPV) (r3 : List Nat)
    (hn : n < 2 ^ 32)
    (h1 : parseMany f (2 * n) Z = some (ws, Y))
    (h2 : parseMany f c Y = some (vs, r3)) :
    parseMany (f + 1) (c + 1) (encMapHeader n ++ Z) =
      some (.map (pairUp ws) :: vs, r3) := by
  unfold encMapHeader
  split_ifs with hA hB
  · exact parseMany_cons_map f c (128 + n) n Z Z Y ws vs r3
      (phead_fixmap n Z hA) h1 h2
  · exact parseMany_cons_map f c 0xde n (toBE 2 n ++ Z) Z Y ws vs r3
      (phead_map16 n Z (by norm_num; omega)) h1 h2
  · exact parseMany_cons_map f c 0xdf n (toBE 4 n ++ Z) Z Y ws vs r3
      (phead_map32 n Z (by norm_num; omega)) h1 h2

/-- The parser inverts the encoder: parsing `vs.length` values from the
encoding of `vs` (followed by anything) returns `vs` and the remainder,
for any fuel at least the node count. -/
theorem parseMany_encMPVList : ∀ (f : Nat) (vs : List MPV) (r : List Nat),
    MPV.wfL vs = true → nodesL vs ≤ f →
    parseMany f vs.length (encMPVList vs ++ r) = some (vs, r) := by
  intro f
  induction f with
  | zero =>
    intro vs r hwf hn
    cases vs with
    | nil => simp [encMPVList, parseMany]
    | cons v t =>
      exfalso
      have := nodes_pos v
      simp only [nodesL] at hn
      omega
  | succ f ih =>
    intro vs r hwf hn
    cases vs with
    | nil => simp [encMPVList, parseMany]
    | cons v t =>
      simp only [MPV.wfL, Bool.and_eq_true] at hwf
      obtain ⟨hwv, hwt⟩ := hwf
      simp only [nodesL] at hn
      have hvpos := nodes_pos v
      have htail := ih t r hwt (by omega)
      simp only [List.length_cons, encMPVList, List.append_assoc]
      cases v with
      | nil =>
        simp only [encMPV]
        exact parseMany_cons_leaf f t.length 0xc0 (encMPVList t ++ r)
          (encMPVList t ++ r) .nil t r (phead_nil _) htail
      | bool b =>
        cases b
        · simp only [encMPV]
          exact parseMany_cons_leaf f t.length 0xc2 (encMPVList t ++ r)
            (encMPVList t ++ r) (.bool false) t r (phead_false _) htail
        · simp only [encMPV]
          exact parseMany_cons_leaf f t.length 0xc3 (encMPVList t ++ r)
            (encMPVList t ++ r) (.bool true) t r (phead_true _) htail
      | int n =>
        simp only [MPV.wf, decide_eq_true_eq] at hwv
        simp only [encMPV]
        exact parseMany_cons_encInt f t.length n (encMPVList t ++ r) t r
          hwv.1 hwv.2 htail
      | str s =>
        simp only [MPV.wf, decide_eq_true_eq] at hwv
        simp only [encMPV, List.append_assoc]
        exact parseMany_cons_encStr f t.length s (encMPVList t ++ r) t r hwv htail
      | arr xs =>
        simp only [MPV.wf, Bool.and_eq_true, decide_eq_true_eq] at hwv
        simp only [nodes] at hn
        have hchild := ih xs (encMPVList t ++ r) hwv.2
          (by have := nodesL_le_enc xs; omega)
        simp only [encMPV, List.append_assoc]
        exact parseMany_cons_encArrH f t.length xs.length
          (encMPVList xs ++ (encMPVList t ++ r)) (encMPVList t ++ r) xs t r
          hwv.1 hchild htail
      | map kvs =>
        simp only [MPV.wf, Bool.and_eq_true, decide_eq_true_eq] at hwv
        simp only [nodes, nodesP_eq_flatten] at hn
        have hchild := ih (flattenP kvs) (encMPVList t ++ r)
          (wfP_flatten kvs hwv.2) (by omega)
        rw [flattenP_length] at hchild
        simp only [encMPV, encMPVPairs_eq_flatten, List.append_assoc]
        have := parseMany_cons_encMapH f t.length kvs.length
          (encMPVList (flattenP kvs) ++ (encMPVList t ++ r)) (encMPVList t ++ r)
          (flattenP kvs) t r hwv.1 hchild htail
        rwa [pairUp_flattenP] at this

/-- `rmp_serde::from_slice` reads back exactly the encoded value. -/
theorem parseOne_encMPV (v : MPV) (hwf : MPV.wf v = true) :
    parseOne (encMPV v) = some (v, []) := by
  have h1 : encMPVList [v] = encMPV v ++ [] := by
    simp [encMPVList]
  have h2 := parseMany_encMPVList (encMPV v).length [v] []
    (by simp [MPV.wfL, hwf])
    (by have := nodes_le_enc v; simp only [nodesL]; omega)
  simp only [List.length_singleton, h1, List.append_nil] at h2
  simp only [parseOne, h2]

/-! ## Object-map lemmas -/

theorem containsKey_append (a b : List (List Nat × Json)) (k : List Nat) :
    containsKey (a ++ b) k = (containsKey a k || containsKey b k) := by
  induction a with
  | nil => simp [containsKey]
  | cons p t ih =>
    obtain ⟨k0, v0⟩ := p
    simp [containsKey, ih, Bool.or_assoc]

theorem containsKey_eq_false_iff (l : List (List Nat × Json)) (key : List Nat) :
    containsKey l key = false ↔ ∀ p ∈ l, p.1 ≠ key := by
  induction l with
  | nil => simp [containsKey]
  | cons p t ih =>
    obtain ⟨k0, v0⟩ := p
    simp only [containsKey, Bool.or_eq_false_iff, ih, decide_eq_false_iff_not,
      List.mem_cons]
    constructor
    · rintro ⟨h1, h2⟩ q hq
      rcases hq with rfl | hq
      · exact h1
      · exact h2 q hq
    · intro h
      exact ⟨h (k0, v0) (Or.inl rfl), fun q hq => h q (Or.inr hq)⟩

theorem insertObj_eq_append (acc : List (List Nat × Json)) (k : List Nat)
    (v : Json) (h : containsKey acc k = false) :
    insertObj acc k v = acc ++ [(k, v)] := by
  induction acc with
  | nil => rfl
  | cons p t ih =>
    obtain ⟨k0, v0⟩ := p
    simp only [containsKey, Bool.or_eq_false_iff, decide_eq_false_iff_not] at h
    simp only [insertObj, if_neg h.1, List.cons_append, List.cons.injEq, true_and]
    exact ih h.2

/-! ## The serde bridge inverts serialization -/

mutual
theorem mpvToJson_jsonToMPV : ∀ j : Json, Json.wf j = true →
    mpvToJson (jsonToMPV j) = .ok j
  | .null, _ => rfl
  | .bool b, _ => rfl
  | .int n, _ => rfl
  | .str s, _ => rfl
  | .arr xs, h => by
    simp only [Json.wf, Bool.and_eq_true, decide_eq_true_eq] at h
    simp only [jsonToMPV, mpvToJson, mpvToJsonList_jsonToMPVList xs h.2]
  | .obj kvs, h => by
    simp only [Json.wf, Bool.and_eq_true, decide_eq_true_eq] at h
    have hp := mpvToJsonPairs_jsonToMPVPairs kvs [] h.2 h.1.2
      (by intro p hp; rfl)
    simp only [jsonToMPV, mpvToJson, hp, List.nil_append]

theorem mpvToJsonList_jsonToMPVList : ∀ xs : List Json, Json.wfL xs = true →
    mpvToJsonList (jsonToMPVList xs) = .ok xs
  | [], _ => rfl
  | x :: t, h => by
    simp only [Json.wfL, Bool.and_eq_true] at h
    simp only [jsonToMPVList, mpvToJsonList, mpvToJson_jsonToMPV x h.1,
      mpvToJsonList_jsonToMPVList t h.2]

theorem mpvToJsonPairs_jsonToMPVPairs :
    ∀ (kvs acc : List (List Nat × Json)),
    Json.wfP kvs = true → nodupKeys kvs = true →
    (∀ p ∈ kvs, containsKey acc p.1 = false) →
    mpvToJsonPairs (jsonToMPVPairs kvs) acc = .ok (acc ++ kvs)
  | [], acc, _, _, _ => by simp [jsonToMPVPairs, mpvToJsonPairs]
  | (k, v) :: t, acc, hwf, hnd, hdisj => by
    simp only [Json.wfP, Bool.and_eq_true, decide_eq_true_eq] at hwf
    simp only [nodupKeys, Bool.and_eq_true, Bool.not_eq_true'] at hnd
    have hck : containsKey acc k = false := hdisj (k, v) (by simp)
    have hrec := mpvToJsonPairs_jsonToMPVPairs t (acc ++ [(k, v)]) hwf.2 hnd.2
      (by
        intro p hp
        rw [containsKey_append]
        have h1 : containsKey acc p.1 = false := hdisj p (by simp [hp])
        have h2 : p.1 ≠ k :=
          (containsKey_eq_false_iff t k).mp hnd.1 p hp
        have h3 : containsKey [(k, v)] p.1 = false := by
          simp only [containsKey, Bool.or_false, decide_eq_false_iff_not]
          exact fun hk => h2 hk.symm
        simp [h1, h3])
    simp only [jsonToMPVPairs, mpvToJsonPairs, mpvToJson_jsonToMPV v hwf.1.2,
      insertObj_eq_append acc k v hck, hrec, List.append_assoc,
      List.singleton_append]
end

theorem jsonToMPVList_length : ∀ xs : List Json,
    (jsonToMPVList xs).length = xs.length := by
  intro xs
  induction xs with
  | nil => rfl
  | cons x t ih => simp [jsonToMPVList, ih]

theorem jsonToMPVPairs_length : ∀ kvs : List (List Nat × Json),
    (jsonToMPVPairs kvs).length = kvs.length := by
  intro kvs
  induction kvs with
  | nil => rfl
  | cons kv t ih =>
    obtain ⟨k, v⟩ := kv
    simp [jsonToMPVPairs, ih]

mutual
theorem wf_jsonToMPV : ∀ j : Json, Json.wf j = true →
    MPV.wf (jsonToMPV j) = true
  | .null, _ => rfl
  | .bool b, _ => rfl
  | .int n, h => h
  | .str s, h => h
  | .arr xs, h => by
    simp only [Json.wf, Bool.and_eq_true, decide_eq_true_eq] at h
    have hlen : (jsonToMPVList xs).length = xs.length := jsonToMPVList_length xs
    simp only [jsonToMPV, MPV.wf, Bool.and_eq_true, decide_eq_true_eq, hlen]
    exact ⟨h.1, wfL_jsonToMPVList xs h.2⟩
  | .obj kvs, h => by
    simp only [Json.wf, Bool.and_eq_true, decide_eq_true_eq] at h
    have hlen : (jsonToMPVPairs kvs).length = kvs.length :=
      jsonToMPVPairs_length kvs
    simp only [jsonToMPV, MPV.wf, Bool.and_eq_true, decide_eq_true_eq, hlen]
    exact ⟨h.1.1, wfP_jsonToMPVPairs kvs h.2⟩

theorem wfL_jsonToMPVList : ∀ xs : List Json, Json.wfL xs = true →
    MPV.wfL (jsonToMPVList xs) = true
  | [], _ => rfl
  | x :: t, h => by
    simp only [Json.wfL, Bool.and_eq_true] at h
    simp only [jsonToMPVList, MPV.wfL, Bool.and_eq_true]
    exact ⟨wf_jsonToMPV x h.1, wfL_jsonToMPVList t h.2⟩

theorem wfP_jsonToMPVPairs : ∀ kvs : List (List Nat × Json),
    Json.wfP kvs = true → MPV.wfP (jsonToMPVPairs kvs) = true
  | [], _ => rfl
  | (k, v) :: t, h => by
    simp only [Json.wfP, Bool.and_eq_true, decide_eq_true_eq] at h
    simp only [jsonToMPVPairs, MPV.wfP, MPV.wf, Bool.and_eq_true,
      decide_eq_true_eq]
    exact ⟨⟨by simpa using h.1.1, wf_jsonToMPV v h.1.2⟩,
      wfP_jsonToMPVPairs t h.2⟩
end

/-! ## The `Metadata` record round-trips through its serialization -/

/-- Well-formedness of a record as the image of a real `Metadata` value:
string lengths fit the MessagePack 32-bit length field and the extension
value is well-formed. -/
def optLenOK : Option (List Nat) → Bool
  | none => true
  | some s => decide (s.length < 2 ^ 32)

def Metadata.wf (m : Metadata) : Bool :=
  optLenOK m.name && optLenOK m.auth && optLenOK m.fmt && optLenOK m.ed &&
  optLenOK m.ver && optLenOK m.desc && Json.wf m.extra

theorem wf_optStrToMPV (o : Option (List Nat)) (h : optLenOK o = true) :
    MPV.wf (optStrToMPV o) = true := by
  cases o with
  | none => rfl
  | some s => exact h

theorem wf_metaToMPV (m : Metadata) (h : m.wf = true) :
    MPV.wf (metaToMPV m) = true := by
  simp only [Metadata.wf, Bool.and_eq_true] at h
  obtain ⟨⟨⟨⟨⟨⟨h1, h2⟩, h3⟩, h4⟩, h5⟩, h6⟩, h7⟩ := h
  simp only [metaToMPV, MPV.wf, MPV.wfL, Bool.and_eq_true, decide_eq_true_eq]
  refine ⟨by norm_num, ?_, ?_, ?_, ?_, ?_, ?_, ?_, trivial⟩
  · exact wf_optStrToMPV _ h1
  · exact wf_optStrToMPV _ h2
  · exact wf_optStrToMPV _ h3
  · exact wf_optStrToMPV _ h4
  · exact wf_optStrToMPV _ h5
  · exact wf_optStrToMPV _ h6
  · exact wf_jsonToMPV _ h7

theorem decodeOptStr_optStrToMPV (o : Option (List Nat)) :
    decodeOptStr (optStrToMPV o) = .ok o := by
  cases o <;> rfl

theorem decodeFromSeq_metaToMPV (m : Metadata) (h : Json.wf m.extra = true) :
    decodeFromSeq [optStrToMPV m.name, optStrToMPV m.auth, optStrToMPV m.fmt,
      optStrToMPV m.ed, optStrToMPV m.ver, optStrToMPV m.desc,
      jsonToMPV m.extra] = .ok m := by
  simp [decodeFromSeq, seqOptStr, seqExtra, decodeOptStr_optStrToMPV,
    mpvToJson_jsonToMPV m.extra h, bind, Except.bind]

theorem decodeMetaOn_metaToMPV (m : Metadata) (h : Json.wf m.extra = true) :
    decodeMetaOn (metaToMPV m) = .ok m := by
  simp only [metaToMPV, decodeMetaOn]
  exact decodeFromSeq_metaToMPV m h

theorem decodeMetaOff_metaToMPV (m : Metadata) (h : Json.wf m.extra = true) :
    decodeMetaOff (metaToMPV m) = .ok m := by
  simp only [metaToMPV, decodeMetaOff]
  exact decodeFromSeq_metaToMPV m h

theorem decodeMetadataBytes_encMeta_on (m : Metadata) (h : m.wf = true) :
    decodeMetadataBytes .on (encMeta m) = .ok m := by
  have hp := parseOne_encMPV (metaToMPV m) (wf_metaToMPV m h)
  simp only [Metadata.wf, Bool.and_eq_true] at h
  simp only [decodeMetadataBytes, encMeta, hp, decodePolicy]
  exact decodeMetaOn_metaToMPV m h.2

theorem decodeMetadataBytes_encMeta_off (m : Metadata) (h : m.wf = true) :
    decodeMetadataBytes .off (encMeta m) = .ok m := by
  have hp := parseOne_encMPV (metaToMPV m) (wf_metaToMPV m h)
  simp only [Metadata.wf, Bool.and_eq_true] at h
  simp only [decodeMetadataBytes, encMeta, hp, decodePolicy]
  exact decodeMetaOff_metaToMPV m h.2

/-! ## Composition helpers -/

theorem encMPV_ne_nil (v : MPV) : encMPV v ≠ [] := by
  intro h
  have h1 := nodes_le_enc v
  have h2 := nodes_pos v
  rw [h] at h1
  simp at h1
  omega

theorem magic_in_range :
    SKIPPABLE_FRAME_MAGIC_MIN ≤ METADATA_FRAME_MAGIC ∧
      METADATA_FRAME_MAGIC ≤ SKIPPABLE_FRAME_MAGIC_MAX := by
  norm_num [SKIPPABLE_FRAME_MAGIC_MIN, SKIPPABLE_FRAME_MAGIC_MAX,
    METADATA_FRAME_MAGIC]

/-- Unfolding equation for `read_metadata_from_file`, stated once so the
later rewrites never force the kernel to expand the definition itself. -/
theorem read_metadata_unfold (bytes : List Nat) (iu : IgnoreUnknown) :
    read_metadata_from_file bytes iu =
      finishRead iu (readLoop (bytes.length + 1) bytes []) := rfl

/-- Reading a file that starts with one well-sized metadata frame collects
exactly its payload and stops at the frame boundary. -/
theorem readLoop_single_frame (payload tail : List Nat) (f : Nat)
    (hp : payload ≠ [])
    (hle : payload.length ≤ MAX_METADATA_SIZE)
    (hf : tail.length < 8 * f)
    (htail : tail = [] ∨ (4 ≤ tail.length ∧
      ¬ (SKIPPABLE_FRAME_MAGIC_MIN ≤ fromLE (tail.take 4) ∧
        fromLE (tail.take 4) ≤ SKIPPABLE_FRAME_MAGIC_MAX))) :
    readLoop (f + 1) (mkFrame METADATA_FRAME_MAGIC payload ++ tail) [] =
      .ok (payload, tail) := by
  rw [readLoop_frame_step f METADATA_FRAME_MAGIC payload tail []
    magic_in_range.1 magic_in_range.2
    (lt_of_le_of_lt hle (by norm_num [MAX_METADATA_SIZE]))
    (by simpa using hle)]
  rw [readLoop_fuel f (tail.length + 1) tail ([] ++ payload) hf (by omega)]
  simp only [List.nil_append]
  rcases htail with rfl | ⟨h4, hmg⟩
  · exact readLoop_eof 0 [] payload (by simp) (by simp [List.isEmpty_iff, hp])
  · exact readLoop_nonskip_stop tail.length tail payload h4 hmg

/-- `pack` succeeds exactly when the encoded metadata fits, and then
returns the single skippable frame. -/
theorem pack_ok_inversion (m : Metadata) (hdr : List Nat)
    (h : pack m none = .ok hdr) :
    (encMeta m).length ≤ MAX_METADATA_SIZE ∧
      hdr = mkFrame METADATA_FRAME_MAGIC (encMeta m) := by
  by_cases hgt : (encMeta m).length > MAX_METADATA_SIZE
  · simp [pack, pack_metadata, if_pos hgt] at h
  · simp only [pack, pack_metadata, if_neg hgt, Except.ok.injEq] at h
    exact ⟨by omega, h.symm⟩

/-! ## Claims -/

/-- **C1.** Round-trip: for every well-formed `Metadata` record that
`pack` accepts, framing the MessagePack serialization as one skippable
frame and appending a payload (empty, or starting with a tag outside the
skippable range, e.g. the zstd frame magic), `read_metadata_from_file`
under the silently-drop (`on`) and strict-reject (`off`) policies returns
a record structurally equal to the original. -/
theorem c1_pack_decode_roundtrip (m : Metadata) (hdr tail : List Nat)
    (hwf : m.wf = true)
    (hpack : pack m none = .ok hdr)
    (htail : tail = [] ∨ (4 ≤ tail.length ∧
      ¬ (SKIPPABLE_FRAME_MAGIC_MIN ≤ fromLE (tail.take 4) ∧
        fromLE (tail.take 4) ≤ SKIPPABLE_FRAME_MAGIC_MAX))) :
    read_metadata_from_file (hdr ++ tail) .on = .ok (m, tail) ∧
      read_metadata_from_file (hdr ++ tail) .off = .ok (m, tail) := by
  obtain ⟨hle, rfl⟩ := pack_ok_inversion m hdr hpack
  have hne : ¬ encMeta m = [] := by
    simpa [encMeta] using encMPV_ne_nil (metaToMPV m)
  have hdecOn := decodeMetadataBytes_encMeta_on m hwf
  have hdecOff := decodeMetadataBytes_encMeta_off m hwf
  generalize hgen : encMeta m = p at hne hdecOn hdecOff hle ⊢
  generalize hinp : mkFrame METADATA_FRAME_MAGIC p ++ tail = input
  have hrl : readLoop (input.length + 1) input [] = .ok (p, tail) := by
    rw [← hinp]
    exact readLoop_single_frame p tail
      (mkFrame METADATA_FRAME_MAGIC p ++ tail).length hne hle
      (by simp only [mkFrame, List.length_append, toLE_length]; omega) htail
  constructor
  · rw [read_metadata_unfold, hrl]
    simp only [finishRead, List.isEmpty_iff, hne, if_false, hdecOn]
  · rw [read_metadata_unfold, hrl]
    simp only [finishRead, List.isEmpty_iff, hne, if_false, hdecOff]

/-- Witness for C1 at the default record with no payload appended. -/
theorem c1_pack_decode_roundtrip_witness :
    read_metadata_from_file
      ((toLE 4 METADATA_FRAME_MAGIC ++ toLE 4 8 ++
        [0x97, 0xc0, 0xc0, 0xc0, 0xc0, 0xc0, 0xc0, 0x80]) ++ []) .on =
      .ok (Metadata.default, []) ∧
    read_metadata_from_file
      ((toLE 4 METADATA_FRAME_MAGIC ++ toLE 4 8 ++
        [0x97, 0xc0, 0xc0, 0xc0, 0xc0, 0xc0, 0xc0, 0x80]) ++ []) .off =
      .ok (Metadata.default, []) :=
  c1_pack_decode_roundtrip Metadata.default
    (toLE 4 METADATA_FRAME_MAGIC ++ toLE 4 8 ++
      [0x97, 0xc0, 0xc0, 0xc0, 0xc0, 0xc0, 0xc0, 0x80]) []
    (by decide) (by rfl) (Or.inl rfl)

/-- **C3.** Multi-block framing: splitting a metadata blob's bytes at any
point across two consecutive skippable frames decodes, under every
unknown-field policy, exactly like a single frame carrying the whole
blob (same record, same errors, same final position). -/
theorem c3_multiblock_framing (blob : List Nat) (i : Nat) (t1 t2 : Nat)
    (rest : List Nat) (iu : IgnoreUnknown)
    (ht1a : SKIPPABLE_FRAME_MAGIC_MIN ≤ t1) (ht1b : t1 ≤ SKIPPABLE_FRAME_MAGIC_MAX)
    (ht2a : SKIPPABLE_FRAME_MAGIC_MIN ≤ t2) (ht2b : t2 ≤ SKIPPABLE_FRAME_MAGIC_MAX)
    (hlen : blob.length ≤ MAX_METADATA_SIZE) :
    read_metadata_from_file
      (mkFrame t1 (blob.take i) ++ (mkFrame t2 (blob.drop i) ++ rest)) iu =
      read_metadata_from_file (mkFrame t1 blob ++ rest) iu := by
  have hta : (blob.take i).length ≤ blob.length := by
    simp [List.length_take]
  have htd : (blob.drop i).length ≤ blob.length := by
    simp [List.length_drop]
  have htad : (blob.take i).length + (blob.drop i).length = blob.length := by
    simp [List.length_take, List.length_drop]
    omega
  have hmax : blob.length < 2 ^ 32 := by
    have : MAX_METADATA_SIZE < 2 ^ 32 := by norm_num [MAX_METADATA_SIZE]
    omega
  -- left side: consume both frames, then normalize fuel
  have e1 := readLoop_frame_step
    (mkFrame t1 (blob.take i) ++ (mkFrame t2 (blob.drop i) ++ rest)).length
    t1 (blob.take i) (mkFrame t2 (blob.drop i) ++ rest) []
    ht1a ht1b (by omega) (by simpa using le_trans hta hlen)
  have e2 := readLoop_fuel
    (mkFrame t1 (blob.take i) ++ (mkFrame t2 (blob.drop i) ++ rest)).length
    ((mkFrame t2 (blob.drop i) ++ rest).length + 1)
    (mkFrame t2 (blob.drop i) ++ rest) ([] ++ blob.take i)
    (by simp only [mkFrame, List.length_append, toLE_length]; omega)
    (by omega)
  have e3 := readLoop_frame_step (mkFrame t2 (blob.drop i) ++ rest).length
    t2 (blob.drop i) rest (([] : List Nat) ++ blob.take i)
    ht2a ht2b (by omega)
    (by simp only [List.nil_append]; omega)
  have e4 := readLoop_fuel (mkFrame t2 (blob.drop i) ++ rest).length
    (rest.length + 1) rest (([] : List Nat) ++ blob.take i ++ blob.drop i)
    (by simp only [mkFrame, List.length_append, toLE_length]; omega)
    (by omega)
  -- right side: consume the single frame, then normalize fuel
  have e5 := readLoop_frame_step (mkFrame t1 blob ++ rest).length
    t1 blob rest [] ht1a ht1b (by omega) (by simpa using hlen)
  have e6 := readLoop_fuel (mkFrame t1 blob ++ rest).length
    (rest.length + 1) rest ([] ++ blob)
    (by simp only [mkFrame, List.length_append, toLE_length]; omega)
    (by omega)
  simp only [List.nil_append] at e1 e2 e3 e4 e5 e6
  rw [List.take_append_drop] at e3 e4
  rw [read_metadata_unfold, read_metadata_unfold, e1, e2, e3, e4, e5, e6]

/-- Witness for C3 at a concrete blob, split point, tags and policy. -/
theorem c3_multiblock_framing_witness :
    read_metadata_from_file
      (mkFrame 0x184D2A50 (([0x97, 0xc0, 0xc0, 0xc0, 0xc0, 0xc0, 0xc0,
          0x80] : List Nat).take 3) ++
        (mkFrame 0x184D2A5F (([0x97, 0xc0, 0xc0, 0xc0, 0xc0, 0xc0, 0xc0,
          0x80] : List Nat).drop 3) ++ [])) .on =
      read_metadata_from_file
        (mkFrame 0x184D2A50 [0x97, 0xc0, 0xc0, 0xc0, 0xc0, 0xc0, 0xc0, 0x80]
          ++ []) .on :=
  c3_multiblock_framing [0x97, 0xc0, 0xc0, 0xc0, 0xc0, 0xc0, 0xc0, 0x80] 3
    0x184D2A50 0x184D2A5F [] .on (by decide) (by decide) (by decide) (by decide)
    (by decide)

/-- **C4.** The `pack` size check: `pack` fails with
`InvalidMetadataLength`, carrying the encoded size, whenever the
MessagePack-encoded metadata is empty or exceeds 10 MiB (the empty case
never arises: the encoder always emits at least the array header, so that
arm is discharged by contradiction), and proceeds past the size check
(emitting the single frame) otherwise. -/
theorem c4_pack_size_check (m : Metadata) (ef : Option Json) :
    ((encMeta (pack_metadata m ef)).length = 0 ∨
      MAX_METADATA_SIZE < (encMeta (pack_metadata m ef)).length →
      pack m ef =
        .error (.invalidMetadataLength (encMeta (pack_metadata m ef)).length)) ∧
    ((encMeta (pack_metadata m ef)).length ≤ MAX_METADATA_SIZE →
      pack m ef = .ok (toLE 4 METADATA_FRAME_MAGIC ++
        toLE 4 (encMeta (pack_metadata m ef)).length ++
        encMeta (pack_metadata m ef))) := by
  constructor
  · rintro (h0 | hgt)
    · exfalso
      rw [List.length_eq_zero] at h0
      exact encMPV_ne_nil (metaToMPV (pack_metadata m ef)) (by simpa [encMeta] using h0)
    · simp only [pack]
      rw [if_pos hgt]
  · intro hle
    simp only [pack]
    rw [if_neg (by omega)]

/-- A record whose encoded metadata exceeds 10 MiB (a 10485761-byte name). -/
def c4BigMeta : Metadata :=
  { name := some (List.replicate 10485761 0), auth := none, fmt := none,
    ed := none, ver := none, desc := none, extra := .null }

/-- The serialized record is at least as long as its `name` payload
(the encoder copies the string bytes verbatim after the headers). -/
theorem encMeta_name_lower (m : Metadata) (s : List Nat)
    (h : m.name = some s) : s.length ≤ (encMeta m).length := by
  simp only [encMeta, metaToMPV, h, optStrToMPV, encMPV, encMPVList,
    List.length_append]
  omega

/-- Witness for C4: the oversized record is rejected with its size, the
default record passes the size check and is framed. -/
theorem c4_pack_size_check_witness :
    pack c4BigMeta none =
      .error (.invalidMetadataLength
        (encMeta (pack_metadata c4BigMeta none)).length) ∧
    pack Metadata.default none =
      .ok (toLE 4 METADATA_FRAME_MAGIC ++
        toLE 4 (encMeta (pack_metadata Metadata.default none)).length ++
        encMeta (pack_metadata Metadata.default none)) :=
  ⟨(c4_pack_size_check c4BigMeta none).1
      (Or.inr (by
        have h := encMeta_name_lower (pack_metadata c4BigMeta none)
          (List.replicate 10485761 0) rfl
        rw [List.length_replicate] at h
        simp only [MAX_METADATA_SIZE]
        omega)),
    (c4_pack_size_check Metadata.default none).2 (by decide)⟩

theorem readLoop_truncated_len (f : Nat) (tag : Nat) (tail acc : List Nat)
    (hr1 : SKIPPABLE_FRAME_MAGIC_MIN ≤ tag) (hr2 : tag ≤ SKIPPABLE_FRAME_MAGIC_MAX)
    (ht : tail.length < 4) :
    readLoop (f + 1) (toLE 4 tag ++ tail) acc = .error (.ioUnexpectedEof, []) := by
  have htag : tag < 256 ^ 4 := by
    simp only [SKIPPABLE_FRAME_MAGIC_MAX] at hr2
    norm_num
    omega
  simp only [readLoop]
  rw [if_neg (by simp only [List.length_append, toLE_length]; omega)]
  rw [List.take_left' (toLE_length 4 tag), fromLE_toLE_of_lt htag,
    if_pos ⟨hr1, hr2⟩, List.drop_left' (toLE_length 4 tag)]
  rw [if_pos ht]

theorem readLoop_truncated_payload (f : Nat) (tag size : Nat)
    (tail acc : List Nat)
    (hr1 : SKIPPABLE_FRAME_MAGIC_MIN ≤ tag) (hr2 : tag ≤ SKIPPABLE_FRAME_MAGIC_MAX)
    (hsz : acc.length + size ≤ MAX_METADATA_SIZE)
    (ht : tail.length < size) :
    readLoop (f + 1) (toLE 4 tag ++ (toLE 4 size ++ tail)) acc =
      .error (.ioUnexpectedEof, []) := by
  have htag : tag < 256 ^ 4 := by
    simp only [SKIPPABLE_FRAME_MAGIC_MAX] at hr2
    norm_num
    omega
  have hsize : size < 256 ^ 4 := by
    simp only [MAX_METADATA_SIZE] at hsz
    norm_num
    omega
  simp only [readLoop]
  rw [if_neg (by simp only [List.length_append, toLE_length]; omega)]
  rw [List.take_left' (toLE_length 4 tag), fromLE_toLE_of_lt htag,
    if_pos ⟨hr1, hr2⟩, List.drop_left' (toLE_length 4 tag)]
  rw [if_neg (by simp only [List.length_append, toLE_length]; omega)]
  rw [List.take_left' (toLE_length 4 size), fromLE_toLE_of_lt hsize,
    List.drop_left' (toLE_length 4 size)]
  rw [if_neg (by omega), if_pos ht]

/-- **C5 (amended).** Malformed-header behavior of decode-header: a first
tag outside the reserved range with nothing collected fails with the
generic invalid-header kind, and so does end-of-input before any metadata
was collected; but a truncated recognized frame (end-of-input inside its
length field or payload) surfaces as the I/O error kind
(`ProjzstError::Io`, `UnexpectedEof`), not as invalid-header — the latter
amends the claim, see the counterexample. -/
theorem c5_malformed_header (input : List Nat) (iu : IgnoreUnknown)
    (tag size : Nat) (tail : List Nat) :
    (4 ≤ input.length →
      ¬ (SKIPPABLE_FRAME_MAGIC_MIN ≤ fromLE (input.take 4) ∧
        fromLE (input.take 4) ≤ SKIPPABLE_FRAME_MAGIC_MAX) →
      read_metadata_from_file input iu = .error .invalidFileHeader) ∧
    (input.length < 4 →
      read_metadata_from_file input iu = .error .invalidFileHeader) ∧
    (SKIPPABLE_FRAME_MAGIC_MIN ≤ tag → tag ≤ SKIPPABLE_FRAME_MAGIC_MAX →
      tail.length < 4 →
      read_metadata_from_file (toLE 4 tag ++ tail) iu =
        .error .ioUnexpectedEof) ∧
    (SKIPPABLE_FRAME_MAGIC_MIN ≤ tag → tag ≤ SKIPPABLE_FRAME_MAGIC_MAX →
      size ≤ MAX_METADATA_SIZE → tail.length < size →
      read_metadata_from_file (toLE 4 tag ++ (toLE 4 size ++ tail)) iu =
        .error .ioUnexpectedEof) := by
  refine ⟨?_, ?_, ?_, ?_⟩
  · intro h4 hmagic
    rw [read_metadata_unfold, readLoop_nonskip_stop input.length input [] h4 hmagic]
    rfl
  · intro h4
    rw [read_metadata_unfold, readLoop_eof_empty input.length input h4]
    rfl
  · intro hr1 hr2 ht
    rw [read_metadata_unfold,
      readLoop_truncated_len (toLE 4 tag ++ tail).length tag tail [] hr1 hr2 ht]
    rfl
  · intro hr1 hr2 hsz ht
    rw [read_metadata_unfold,
      readLoop_truncated_payload (toLE 4 tag ++ (toLE 4 size ++ tail)).length
        tag size tail [] hr1 hr2 (by simpa using hsz) ht]
    rfl

/-- Counterexample to C5 as stated: a frame truncated right after its tag
does NOT fail with the invalid-header kind; it fails with the I/O
(UnexpectedEof) kind. -/
theorem c5_malformed_header_counterexample :
    ¬ (read_metadata_from_file (toLE 4 0x184D2A50) .on =
        .error .invalidFileHeader) ∧
    read_metadata_from_file (toLE 4 0x184D2A50) .on =
      .error .ioUnexpectedEof := by
  have e : read_metadata_from_file (toLE 4 0x184D2A50) .on =
      .error .ioUnexpectedEof := rfl
  refine ⟨fun h => ?_, e⟩
  rw [e] at h
  simp at h

/-- Witness for C5 at concrete inputs for all four arms. -/
theorem c5_malformed_header_witness :
    read_metadata_from_file [0, 0, 0, 0] .on = .error .invalidFileHeader ∧
    read_metadata_from_file [1, 2, 3] .on = .error .invalidFileHeader ∧
    read_metadata_from_file (toLE 4 0x184D2A50 ++ [9]) .on =
      .error .ioUnexpectedEof ∧
    read_metadata_from_file (toLE 4 0x184D2A50 ++ (toLE 4 5 ++ [1, 2])) .on =
      .error .ioUnexpectedEof :=
  ⟨(c5_malformed_header [0, 0, 0, 0] .on 0 0 []).1 (by decide) (by decide),
    (c5_malformed_header [1, 2, 3] .on 0 0 []).2.1 (by decide),
    (c5_malformed_header [] .on 0x184D2A50 0 [9]).2.2.1 (by decide) (by decide)
      (by decide),
    (c5_malformed_header [] .on 0x184D2A50 5 [1, 2]).2.2.2 (by decide)
      (by decide) (by decide) (by decide)⟩

/-- **C6.** During the framing loop, a recognized header block whose
declared length together with the bytes collected so far exceeds the
10 MiB bound fails with `InvalidMetadataLength` carrying the declared
length, and the error position sits right after the length field — the
block's payload bytes (`tail` here) are untouched. -/
theorem c6_oversize_block (f : Nat) (mb sb tail acc : List Nat)
    (hm : mb.length = 4) (hs : sb.length = 4)
    (hr1 : SKIPPABLE_FRAME_MAGIC_MIN ≤ fromLE mb)
    (hr2 : fromLE mb ≤ SKIPPABLE_FRAME_MAGIC_MAX)
    (hover : MAX_METADATA_SIZE < acc.length + fromLE sb) :
    readLoop (f + 1) (mb ++ (sb ++ tail)) acc =
      .error (.invalidMetadataLength (fromLE sb), tail) := by
  simp only [readLoop]
  rw [if_neg (by simp only [List.length_append, hm, hs]; omega)]
  rw [List.take_left' hm, if_pos ⟨hr1, hr2⟩, List.drop_left' hm]
  rw [if_neg (by simp only [List.length_append, hs]; omega)]
  rw [List.take_left' hs, List.drop_left' hs]
  rw [if_pos hover]

/-- Witness for C6: a first block declaring 10485761 bytes is rejected
with that size before any payload is read. -/
theorem c6_oversize_block_witness :
    readLoop (0 + 1) (toLE 4 0x184D2A50 ++ (toLE 4 10485761 ++ [7, 7])) [] =
      .error (.invalidMetadataLength (fromLE (toLE 4 10485761)), [7, 7]) :=
  c6_oversize_block 0 (toLE 4 0x184D2A50) (toLE 4 10485761) [7, 7] []
    (by decide) (by decide) (by decide) (by decide) (by decide)

/-- **C7.** Whenever decode-header succeeds, the remaining bytes are a
suffix of the input that is either empty (the file held only header
blocks; the collected metadata was retained and decoded) or starts with a
4-byte little-endian tag outside the reserved range (the first byte of
the compressed stream). -/
theorem c7_success_position (input : List Nat) (iu : IgnoreUnknown)
    (m : Metadata) (rest : List Nat)
    (h : read_metadata_from_file input iu = .ok (m, rest)) :
    (∃ k, rest = input.drop k) ∧
    (rest = [] ∨ (4 ≤ rest.length ∧
      ¬ (SKIPPABLE_FRAME_MAGIC_MIN ≤ fromLE (rest.take 4) ∧
        fromLE (rest.take 4) ≤ SKIPPABLE_FRAME_MAGIC_MAX))) ∧
    (∃ md, readLoop (input.length + 1) input [] = .ok (md, rest) ∧
      ¬ md = [] ∧ decodeMetadataBytes iu md = .ok m) := by
  rw [read_metadata_unfold] at h
  cases hres : readLoop (input.length + 1) input [] with
  | error p =>
    obtain ⟨e, rem⟩ := p
    rw [hres] at h
    simp only [finishRead] at h
    exact absurd h (by simp)
  | ok p =>
    obtain ⟨md, rem⟩ := p
    rw [hres] at h
    simp only [finishRead] at h
    by_cases hmd : md.isEmpty
    · rw [if_pos hmd] at h
      exact absurd h (by simp)
    · rw [if_neg hmd] at h
      cases hdec : decodeMetadataBytes iu md with
      | error e =>
        rw [hdec] at h
        exact absurd h (by simp)
      | ok m2 =>
        rw [hdec] at h
        simp only [Except.ok.injEq, Prod.mk.injEq] at h
        obtain ⟨rfl, rfl⟩ := h
        obtain ⟨hk, hbd⟩ := readLoop_ok_position _ _ _ _ _ hres
        exact ⟨hk, hbd, md, rfl, by simpa [List.isEmpty_iff] using hmd, hdec⟩

/-- Witness for C7 at a concrete metadata-only container. -/
theorem c7_success_position_witness :
    (∃ k, ([] : List Nat) =
      (toLE 4 METADATA_FRAME_MAGIC ++ toLE 4 8 ++
        [0x97, 0xc0, 0xc0, 0xc0, 0xc0, 0xc0, 0xc0, 0x80]).drop k) ∧
    (([] : List Nat) = [] ∨ (4 ≤ ([] : List Nat).length ∧
      ¬ (SKIPPABLE_FRAME_MAGIC_MIN ≤ fromLE (([] : List Nat).take 4) ∧
        fromLE (([] : List Nat).take 4) ≤ SKIPPABLE_FRAME_MAGIC_MAX))) ∧
    (∃ md, readLoop ((toLE 4 METADATA_FRAME_MAGIC ++ toLE 4 8 ++
        [0x97, 0xc0, 0xc0, 0xc0, 0xc0, 0xc0, 0xc0, 0x80]).length + 1)
        (toLE 4 METADATA_FRAME_MAGIC ++ toLE 4 8 ++
          [0x97, 0xc0, 0xc0, 0xc0, 0xc0, 0xc0, 0xc0, 0x80]) [] =
        .ok (md, []) ∧
      ¬ md = [] ∧ decodeMetadataBytes .on md = .ok Metadata.default) :=
  c7_success_position
    (toLE 4 METADATA_FRAME_MAGIC ++ toLE 4 8 ++
      [0x97, 0xc0, 0xc0, 0xc0, 0xc0, 0xc0, 0xc0, 0x80])
    .on Metadata.default [] (by rfl)

theorem isObj_obj (kvs : List (List Nat × Json)) :
    (Json.obj kvs).isObj = true := rfl

/-- **C2.** The three unknown-field policies on a header block whose
payload is the MessagePack map `\x7bname: "x", bogus: 1\x7d` ("x" is byte 120):
silently-drop returns `name = "x"` with no trace of `bogus` anywhere (the
whole record is pinned, and `bogus` does not occur in the extension
value); strict-reject fails with the unknown-fields error listing
`bogus`; export-to-extension returns `name = "x"` with
`extra.ignored.bogus = 1`. -/
theorem c2_unknown_field_policies :
    (read_metadata_from_file
        (mkFrame METADATA_FRAME_MAGIC
          (encMPV (.map [(.str nameKey, .str [120]), (.str bogusKey, .int 1)])))
        .on =
      .ok ({ name := some [120], auth := none, fmt := none, ed := none,
             ver := none, desc := none, extra := .null }, []) ∧
      Json.hasKeyDeep bogusKey .null = false) ∧
    read_metadata_from_file
        (mkFrame METADATA_FRAME_MAGIC
          (encMPV (.map [(.str nameKey, .str [120]), (.str bogusKey, .int 1)])))
        .off =
      .error (.unknownFields bogusKey) ∧
    read_metadata_from_file
        (mkFrame METADATA_FRAME_MAGIC
          (encMPV (.map [(.str nameKey, .str [120]), (.str bogusKey, .int 1)])))
        .export_ =
      .ok ({ name := some [120], auth := none, fmt := none, ed := none,
             ver := none, desc := none,
             extra := .obj [(ignoredKey, .obj [(bogusKey, .int 1)])] }, []) :=
  ⟨⟨rfl, rfl⟩, rfl, rfl⟩

/-- Counterexample to C8 as stated: `with_extra` (attach-extension),
`pack`'s extra-file loading, and the silently-drop decode of a map
without an `extra` key all yield a record whose `extra` is not an object
(`null` or a number). -/
theorem c8_extra_object_counterexample :
    ((Metadata.default.with_extra .null).extra).isObj = false ∧
    ((pack_metadata Metadata.default (some (.int 5))).extra).isObj = false ∧
    read_metadata_from_file
        (mkFrame METADATA_FRAME_MAGIC
          (encMPV (.map [(.str nameKey, .str [120])]))) .on =
      .ok ({ name := some [120], auth := none, fmt := none, ed := none,
             ver := none, desc := none, extra := .null }, []) ∧
    Json.null.isObj = false :=
  ⟨rfl, rfl, rfl, rfl⟩

/-- **C8 (amended).** The operations that do guarantee an object-shaped
`extra`: construction (`Metadata::new` and `Metadata::default`) always
yields an empty extension object, and `merge_unknown_fields` with an
object argument always leaves `extra` an object. The remaining operations
(attach-extension, `pack`'s extra-file loading, and the decode policies)
pass arbitrary values through — see the counterexample. -/
theorem c8_extra_object_amended :
    (∀ name auth fmt ed ver desc,
      (Metadata.new name auth fmt ed ver desc).extra = .obj []) ∧
    Metadata.default.extra = .obj [] ∧
    (∀ (m : Metadata) (u : Json), u.isObj = true →
      ((m.merge_unknown_fields u).extra).isObj = true) := by
  refine ⟨fun _ _ _ _ _ _ => rfl, rfl, ?_⟩
  intro m u hu
  cases u with
  | obj ukvs => rfl
  | null => exact absurd hu (by simp [Json.isObj])
  | bool b => exact absurd hu (by simp [Json.isObj])
  | int n => exact absurd hu (by simp [Json.isObj])
  | str s => exact absurd hu (by simp [Json.isObj])
  | arr xs => exact absurd hu (by simp [Json.isObj])

/-- Witness for (amended) C8 at concrete records. -/
theorem c8_extra_object_amended_witness :
    (Metadata.new none none none none none none).extra = .obj [] ∧
    Metadata.default.extra = .obj [] ∧
    ((Metadata.default.merge_unknown_fields
        (.obj [([102, 111, 111], .int 1)])).extra).isObj = true :=
  ⟨c8_extra_object_amended.1 none none none none none none,
    c8_extra_object_amended.2.1,
    c8_extra_object_amended.2.2 Metadata.default
      (.obj [([102, 111, 111], .int 1)]) rfl⟩

/-- **C9.** Merging over an invalid-shape `"ignored"` entry: starting from
`extra = \x7bignored: "scalar"\x7d`, merging the unknown fields `\x7bfoo: 1\x7d`
succeeds (the operation is total) and leaves `extra.ignored = \x7bfoo: 1\x7d`,
the prior scalar discarded; in general a non-object `extra` and a
non-object `"ignored"` entry are each coerced to an empty object before
the unknown keys are inserted. -/
theorem c9_merge_scalar_coercion :
    ((Metadata.default.with_extra
        (.obj [(ignoredKey, .str [115, 99, 97, 108, 97, 114])])).merge_unknown_fields
        (.obj [([102, 111, 111], .int 1)])).extra =
      .obj [(ignoredKey, .obj [([102, 111, 111], .int 1)])] ∧
    (∀ (m : Metadata) (ukvs : List (List Nat × Json)), m.extra.isObj = false →
      (m.merge_unknown_fields (.obj ukvs)).extra =
        .obj [(ignoredKey, .obj (insertAll [] ukvs))]) ∧
    (∀ (m : Metadata) (ekvs ukvs : List (List Nat × Json)) (ign : Json),
      m.extra = .obj ekvs → lookupObj ekvs ignoredKey = some ign →
      ign.isObj = false →
      (m.merge_unknown_fields (.obj ukvs)).extra =
        .obj (insertObj ekvs ignoredKey (.obj (insertAll [] ukvs)))) := by
  refine ⟨rfl, ?_, ?_⟩
  · intro m ukvs hx
    have hx2 : ¬ (m.extra.isObj = true) := by simp [hx]
    simp only [Metadata.merge_unknown_fields, if_neg hx2]
    simp [lookupObj, Json.isObj, Json.objEntries, insertObj]
  · intro m ekvs ukvs ign hex hlk hig
    have hig2 : ¬ (ign.isObj = true) := by simp [hig]
    simp only [Metadata.merge_unknown_fields, hex, isObj_obj,
      eq_self_iff_true, if_true, Json.objEntries, hlk, if_neg hig2]

/-- Witness for C9: the concrete part plus both coercion arms at concrete
records. -/
theorem c9_merge_scalar_coercion_witness :
    ((Metadata.default.with_extra
        (.obj [(ignoredKey, .str [115, 99, 97, 108, 97, 114])])).merge_unknown_fields
        (.obj [([102, 111, 111], .int 1)])).extra =
      .obj [(ignoredKey, .obj [([102, 111, 111], .int 1)])] ∧
    ((Metadata.default.with_extra (.int 7)).merge_unknown_fields
        (.obj [([102, 111, 111], .int 1)])).extra =
      .obj [(ignoredKey, .obj (insertAll [] [([102, 111, 111], .int 1)]))] ∧
    ((Metadata.default.with_extra
        (.obj [(ignoredKey, .str [115, 99, 97, 108, 97, 114])])).merge_unknown_fields
        (.obj [([102, 111, 111], .int 1)])).extra =
      .obj (insertObj [(ignoredKey, .str [115, 99, 97, 108, 97, 114])]
        ignoredKey (.obj (insertAll [] [([102, 111, 111], .int 1)]))) :=
  ⟨c9_merge_scalar_coercion.1,
    c9_merge_scalar_coercion.2.1
      (Metadata.default.with_extra (.int 7)) [([102, 111, 111], .int 1)] rfl,
    c9_merge_scalar_coercion.2.2
      (Metadata.default.with_extra
        (.obj [(ignoredKey, .str [115, 99, 97, 108, 97, 114])]))
      [(ignoredKey, .str [115, 99, 97, 108, 97, 114])]
      [([102, 111, 111], .int 1)] (.str [115, 99, 97, 108, 97, 114])
      rfl rfl rfl⟩

/-- **C10.** `merge_unknown_fields` with any non-object argument (null,
boolean, number, string, or array) is a complete no-op: the whole record,
all seven fields including `extra`, is unchanged. -/
theorem c10_merge_non_object_noop (m : Metadata) (u : Json)
    (h : u.isObj = false) : m.merge_unknown_fields u = m := by
  cases u with
  | obj kvs => exact absurd h (by simp [Json.isObj])
  | null => rfl
  | bool b => rfl
  | int n => rfl
  | str s => rfl
  | arr xs => rfl

/-- Witness for C10 at a concrete record and number argument. -/
theorem c10_merge_non_object_noop_witness :
    Metadata.default.merge_unknown_fields (.int 1) = Metadata.default :=
  c10_merge_non_object_noop Metadata.default (.int 1) rfl

end Projzst
